import Mathlib

/-!
# codesearch: cindex and csearch orchestration

A shallow embedding of `cmd/cindex/cindex.go` and `cmd/csearch/csearch.go`.

The index engine (`codesearch/index`), the regular-expression engine and the
content reporter (`codesearch/regexp`), and the Go standard library are outside
the two source files. Their calls are recorded as operations of a trace, and
what they return is supplied by an environment record.

A Go string is a byte sequence; it is represented by the list of its bytes, each
byte `b` written as the character with code `b`. The counter `indexFileSize`
is an `int64` and wraps around; file identifiers (`uint32`) are only passed on
and are natural numbers here.

`filepath.Walk`, `filepath.Join` and `filepath.Clean` are modelled after their
documented behaviour on slash-separated paths, the walk on a file tree; the
result of `ioutil.ReadDir` is supplied by the environment. A method call on a
nil `os.FileInfo` is a run-time panic and ends the process with status 2.

The goroutines of csearch's concurrent mode share `post`, `g.Match` and
`matches` without synchronisation. A run of them is a list of scheduling
decisions: which goroutine takes the next step, what its reads of the shared
variables return when that is not the value written last, and whether it
panics, which ends the process; `wg.Wait()` lets every goroutine run to its
end. The runs in which every read returns the value written last and no
goroutine panics are the interleavings of the goroutines' steps.
-/

/-- Go `string`. -/
abbrev GoString := List Char

/-- The part of an `os.FileInfo` the two programs read. `modeType` is the value
of `info.Mode() & os.ModeType` (zero for a regular file). -/
structure FileInfo where
  isDir : Bool
  modeType : Nat
  size : Int
deriving DecidableEq

mutual
/-- A file tree as `filepath.Walk` meets it. `missing` is a path whose `Lstat`
fails. For `entry`, `readErr` says that listing the directory fails and
`entries` are the directory's children in lexical order (both are looked at
only when `info.isDir`). -/
inductive FsNode where
  | missing : FsNode
  | entry (info : FileInfo) (readErr : Bool) (entries : FsEntries) : FsNode
/-- The named children of a directory. -/
inductive FsEntries where
  | nil : FsEntries
  | cons (name : GoString) (node : FsNode) (rest : FsEntries) : FsEntries
end

/-- What a `filepath.WalkFunc` invocation results in: `nil`, `filepath.SkipDir`,
or a run-time panic inside the callback (a method call on a nil `os.FileInfo`). -/
inductive Ret where
  | ok
  | skipDir
  | crash
deriving DecidableEq

/-- The second result of `filepath.Split(path)`: what follows the last `/`. -/
def splitFile (path : GoString) : GoString :=
  (path.reverse.takeWhile (fun c => c != '/')).reverse

/-- The elements of a path between its separators. -/
def splitSlash : GoString → List GoString
  | [] => [[]]
  | c :: rest =>
    if c = '/' then [] :: splitSlash rest
    else
      match splitSlash rest with
      | [] => [[c]]
      | e :: es => (c :: e) :: es

/-- The elements joined by single separators. -/
def joinSlash : List GoString → GoString
  | [] => []
  | [e] => e
  | e :: es => e ++ '/' :: joinSlash es

/-- One element met by `filepath.Clean`, the elements kept so far with the last
one first: an empty element and `.` are dropped; `..` removes the element
before it, is dropped at the top of a rooted path, and is kept where there is
nothing to remove in a path that is not rooted; any other element is kept. -/
def cleanStep (rooted : Bool) (kept : List GoString) (elem : GoString) : List GoString :=
  if elem = [] then kept
  else if elem = ['.'] then kept
  else if elem = ['.', '.'] then
    match kept with
    | [] => if rooted then [] else [elem]
    | top :: below => if top = ['.', '.'] then elem :: kept else below
  else elem :: kept

/-- Go's `filepath.Clean` on a path with `/` as separator: the shortest path
that names the same file by purely lexical processing; the empty path becomes
`.`. -/
def cleanPath (path : GoString) : GoString :=
  if path.head? = some '/' then
    '/' :: joinSlash ((splitSlash path).foldl (cleanStep true) []).reverse
  else if ((splitSlash path).foldl (cleanStep false) []) = [] then ['.']
  else joinSlash ((splitSlash path).foldl (cleanStep false) []).reverse

/-- Go's `filepath.Join(dir, name)`: the elements that are not empty, joined by
a separator, and the result cleaned. -/
def joinPath (dir name : GoString) : GoString :=
  if dir ≠ [] then cleanPath (dir ++ '/' :: name)
  else if name ≠ [] then cleanPath name
  else []

/-- Whether `walk` finds a child to be a non-directory (`!fileInfo.IsDir()`); a
child whose `Lstat` failed has no `FileInfo` and is not walked into. -/
def FsNode.nonDir : FsNode → Bool
  | .missing => false
  | .entry info _ _ => !info.isDir

mutual
/-- The function `walk` of Go's `path/filepath` on one path, together with the
call made for a path whose `Lstat` failed (a nil `FileInfo` and the error). A
non-directory is reported once; a directory is reported with the error of
listing it, and unless that failed or the callback returned non-nil its
children are walked in order. -/
def walkNode {σ : Type} (fn : σ → GoString → Option FileInfo → Bool → σ × Ret)
    (path : GoString) : FsNode → σ → σ × Ret
  | .missing, st => fn st path none true
  | .entry info readErr entries, st =>
    if !info.isDir then fn st path (some info) false
    else
      let r := fn st path (some info) readErr
      if readErr || r.2 != Ret.ok then r
      else walkEntries fn path entries r.1
/-- The loop over a directory's children in `walk`: a result other than `nil`
ends the directory being walked, except that `SkipDir` from a directory (or
from a child whose `Lstat` failed) only skips that child. -/
def walkEntries {σ : Type} (fn : σ → GoString → Option FileInfo → Bool → σ × Ret)
    (path : GoString) : FsEntries → σ → σ × Ret
  | .nil, st => (st, Ret.ok)
  | .cons name node rest, st =>
    let r := walkNode fn (joinPath path name) node st
    if r.2 != Ret.ok && (node.nonDir || r.2 != Ret.skipDir) then r
    else walkEntries fn path rest r.1
end

/-- Go's `filepath.Walk(root, fn)`: the walk from `root`, with a final
`SkipDir` turned into `nil`. -/
def Walk {σ : Type} (fn : σ → GoString → Option FileInfo → Bool → σ × Ret)
    (root : GoString) (node : FsNode) (st : σ) : σ × Ret :=
  let r := walkNode fn root node st
  if r.2 = Ret.skipDir then (r.1, Ret.ok) else r

mutual
/-- Whether `Lstat` succeeds on every path of the tree. -/
def FsNode.present : FsNode → Bool
  | FsNode.missing => false
  | FsNode.entry _ _ entries => FsEntries.present entries
/-- Whether `Lstat` succeeds on every path below the directory. -/
def FsEntries.present : FsEntries → Bool
  | FsEntries.nil => true
  | FsEntries.cons _ node rest => FsNode.present node && FsEntries.present rest
end

namespace Cindex

/-- The calls cindex makes on the index engine and the file system, in the
order it makes them. A shard handle is the number of the `index.Create` call
that returned it. -/
inductive Op where
  | remove (path : GoString)
  | openIndex (path : GoString)
  | printPath (path : GoString)
  | create (h : Nat) (path : GoString)
  | addPaths (h : Nat) (paths : List GoString)
  | addFile (h : Nat) (path : GoString)
  | flush (h : Nat)
  | merge (dst src1 src2 : GoString)
  | rename (oldpath newpath : GoString)
deriving DecidableEq

/-- What the surroundings answer. `abs` is `filepath.Abs` (`none` for an
error), `indexFile` is `index.File()`, `indexFromDir k dir` is what the call
number `k` of `index.IndexFromDir(dir)` returns, `statOk p` says that
`os.Stat(p)` succeeds, `paths p` is `Paths()` of the index opened at `p`, and
`fs root` is the file tree found at `root`. -/
structure Env where
  abs : GoString → Option GoString
  indexFile : GoString
  indexFromDir : Nat → GoString → GoString
  statOk : GoString → Bool
  paths : GoString → List GoString
  fs : GoString → FsNode

/-- The command-line flags that steer the run. -/
structure Flags where
  listFlag : Bool
  resetFlag : Bool
  verboseFlag : Bool
  indexDir : GoString

/-- The variables the walk callback closes over: the current shard `ix`, the
byte counter `indexFileSize`, and the calls made so far. -/
structure IndexState where
  ix : Nat
  indexFileSize : Int
  shards : Nat
  fromDirCalls : Nat
  trace : List Op

/-- Two-complement wrap-around of `int64` arithmetic. -/
def wrapInt64 (x : Int) : Int := (x + 2 ^ 63) % 2 ^ 64 - 2 ^ 63

/-- The constant `1*1024*1024*1024*100` of the rotation test. -/
def rotateLimit : Int := 1 * 1024 * 1024 * 1024 * 100

/-- The test on the last path element that marks a temporary or hidden name:
`elem[0] == '.' || elem[0] == '#' || elem[0] == '~' || elem[len(elem)-1] == '~'`,
guarded by `elem != ""`. -/
def hiddenElem (elem : GoString) : Bool :=
  match elem with
  | [] => false
  | c :: _ => c == '.' || c == '#' || c == '~' || elem.getLast? == some '~'

/-- The body of `if info != nil && info.Mode()&os.ModeType == 0`: count the
size, rotate when the counter reached the limit, then add the file to the
current shard. -/
def addRegular (env : Env) (indexDir : GoString) (st : IndexState) (path : GoString)
    (size : Int) : IndexState :=
  let total := wrapInt64 (st.indexFileSize + size)
  let st1 : IndexState :=
    if total ≥ rotateLimit then
      { ix := st.shards
        indexFileSize := 0
        shards := st.shards + 1
        fromDirCalls := st.fromDirCalls + 1
        trace := st.trace ++ [Op.flush st.ix,
          Op.create st.shards (env.indexFromDir st.fromDirCalls indexDir)] }
    else { st with indexFileSize := total }
  { st1 with trace := st1.trace ++ [Op.addFile st1.ix path] }

/-- The function literal passed to `filepath.Walk` in `main`. -/
def walkFn (env : Env) (indexDir : GoString) (st : IndexState) (path : GoString)
    (info : Option FileInfo) (err : Bool) : IndexState × Ret :=
  if hiddenElem (splitFile path) then
    match info with
    | none => (st, Ret.crash)
    | some i => if i.isDir then (st, Ret.skipDir) else (st, Ret.ok)
  else if err then (st, Ret.ok)
  else
    match info with
    | some i =>
      if i.modeType = 0 then (addRegular env indexDir st path i.size, Ret.ok)
      else (st, Ret.ok)
    | none => (st, Ret.ok)

/-- Go's `sort.Strings`: the arguments in increasing byte-wise order. -/
def sortStrings (xs : List GoString) : List GoString := xs.insertionSort (· ≤ ·)

/-- The argument list after the translation to absolute paths (an argument
that fails becomes `""`), the sort, and the removal of the leading empty
strings: what `main` hands to `AddPaths` and walks. -/
def pathList (env : Env) (args : List GoString) : List GoString :=
  (sortStrings (args.map (fun arg => (env.abs arg).getD []))).dropWhile (fun a => a == [])

/-- The loop `for _, arg := range args { filepath.Walk(arg, ...) }`; a panic in
the callback ends the process. -/
def walkArgs (env : Env) (indexDir : GoString) :
    List GoString → IndexState → IndexState × Ret
  | [], st => (st, Ret.ok)
  | arg :: rest, st =>
    let r := Walk (walkFn env indexDir) arg (env.fs arg) st
    if r.2 = Ret.crash then r else walkArgs env indexDir rest r.1

/-- The path `master` of `main`. -/
def masterPath (env : Env) (flags : Flags) : GoString :=
  if flags.indexDir ≠ [] then env.indexFromDir 0 flags.indexDir else []

/-- The value of `*resetFlag` after the `os.Stat(master)` test. -/
def resetMode (env : Env) (flags : Flags) : Bool :=
  flags.resetFlag || !env.statOk (masterPath env flags)

/-- The path `file` of `main`. -/
def filePath (env : Env) (flags : Flags) : GoString :=
  if !resetMode env flags then masterPath env flags ++ ['~'] else masterPath env flags

/-- The state right after `ix := index.Create(file)` and `ix.AddPaths(args)`. -/
def initState (env : Env) (flags : Flags) (paths : List GoString) : IndexState :=
  { ix := 0
    indexFileSize := 0
    shards := 1
    fromDirCalls := if flags.indexDir ≠ [] then 1 else 0
    trace := [Op.create 0 (filePath env flags), Op.addPaths 0 paths] }

/-- How a run of cindex ends: the calls it made, and whether it died in a panic. -/
structure Outcome where
  trace : List Op
  crashed : Bool

/-- The function `main` of cindex. -/
def main (env : Env) (flags : Flags) (args : List GoString) : Outcome :=
  if flags.resetFlag && args.length == 0 then
    { trace := [Op.remove env.indexFile], crashed := false }
  else if args.length == 0 then
    { trace := [Op.openIndex env.indexFile], crashed := false }
  else
    let paths := pathList env args
    let master := masterPath env flags
    if flags.listFlag then
      { trace := Op.openIndex master :: (env.paths master).map Op.printPath, crashed := false }
    else
      let file := filePath env flags
      let r := walkArgs env flags.indexDir paths (initState env flags paths)
      if r.2 = Ret.crash then { trace := r.1.trace, crashed := true }
      else
        let t := r.1.trace ++ [Op.flush r.1.ix]
        if !resetMode env flags then
          { trace := t ++ [Op.merge (file ++ ['~']) master file, Op.remove file,
              Op.rename (file ++ ['~']) master]
            crashed := false }
        else { trace := t, crashed := false }

/-! ### Reading a trace -/

/-- The paths passed to `AddFile`, in the order of the calls. -/
def addedFiles (t : List Op) : List GoString :=
  t.filterMap (fun op => match op with
    | Op.addFile _ p => some p
    | _ => none)

/-- The paths passed to `AddFile` on the shard with handle `h`, in order. -/
def shardFiles (h : Nat) (t : List Op) : List GoString :=
  t.filterMap (fun op => match op with
    | Op.addFile h1 p => if h1 = h then some p else none
    | _ => none)

/-- The file lists of the shards with handles `0`, ..., `n - 1`, one after the
other in the order the shards were created. -/
def shardConcat : Nat → List Op → List GoString
  | 0, _ => []
  | n + 1, t => shardConcat n t ++ shardFiles n t

/-- A regular file as the walk reports it: its path and `info.Size()`. -/
structure RegFile where
  path : GoString
  size : Int

/-- The callback invoked, in order, on a sequence of regular files reported
without error. -/
def visitFiles (env : Env) (indexDir : GoString) : List RegFile → IndexState → IndexState
  | [], st => st
  | f :: rest, st =>
    visitFiles env indexDir rest
      (walkFn env indexDir st f.path (some { isDir := false, modeType := 0, size := f.size })
        false).1

/-- Whether an operation writes the file at path `p`. -/
def Op.writes (p : GoString) : Op → Bool
  | Op.create _ q => q == p
  | Op.merge dst _ _ => dst == p
  | Op.remove q => q == p
  | Op.rename o n => o == p || n == p
  | _ => false

/-- A rotation's `Create`: a call that returns a handle other than the first,
on a path that a call of `IndexFromDir` returned. -/
def isRotationCreate (env : Env) (indexDir : GoString) (op : Op) : Prop :=
  ∃ h k, 0 < h ∧ op = Op.create h (env.indexFromDir k indexDir)

/-- The state of the shard life-cycle check: the shard open for writing, if
any, and the number of shards created so far. -/
structure Life where
  openShard : Option Nat
  created : Nat
deriving DecidableEq

/-- One step of the life-cycle check. `Create` needs every earlier shard to be
flushed and returns the next handle; `AddPaths`, `AddFile` and `Flush` need
their shard to be the one open for writing; `Flush` closes it; `Merge` needs no
shard to be open. -/
def lifeStep (l : Life) : Op → Option Life
  | Op.create h _ =>
    if l.openShard = none ∧ h = l.created then
      some { openShard := some h, created := l.created + 1 }
    else none
  | Op.addPaths h _ => if l.openShard = some h then some l else none
  | Op.addFile h _ => if l.openShard = some h then some l else none
  | Op.flush h => if l.openShard = some h then some { l with openShard := none } else none
  | Op.merge _ _ _ => if l.openShard = none then some l else none
  | _ => some l

/-- The life-cycle check run over a trace from a given state. -/
def lifeRun : Life → List Op → Option Life
  | l, [] => some l
  | l, op :: rest =>
    match lifeStep l op with
    | some l1 => lifeRun l1 rest
    | none => none

/-- A trace in which every created shard is flushed exactly once, before any
later `Create` and before `Merge`, and receives no `AddFile` after its flush. -/
def lifecycleOk (t : List Op) : Bool :=
  match lifeRun { openShard := none, created := 0 } t with
  | some l => l.openShard == none
  | none => false

/-! ### Concrete inputs -/

/-- An environment in which every argument is an absolute path already, shards
are named `dir/s`, `dir/ss`, ... by `IndexFromDir`, the master does not exist
yet, and `/src/a.go` and `/src/b.go` are regular files of 100 GiB and 1 byte. -/
def sampleEnv : Env :=
  { abs := fun p => some p
    indexFile := "/home/u/.csearchindex".toList
    indexFromDir := fun k dir => dir ++ '/' :: List.replicate (k + 1) 's'
    statOk := fun _ => false
    paths := fun _ => ["/src".toList]
    fs := fun root =>
      if root = "/src/a.go".toList then
        FsNode.entry { isDir := false, modeType := 0, size := 107374182400 } false FsEntries.nil
      else if root = "/src/b.go".toList then
        FsNode.entry { isDir := false, modeType := 0, size := 1 } false FsEntries.nil
      else if root = "/src".toList then
        FsNode.entry { isDir := true, modeType := 2147483648, size := 4096 } false
          (FsEntries.cons ".git".toList
            (FsNode.entry { isDir := true, modeType := 2147483648, size := 4096 } false
              (FsEntries.cons "config".toList
                (FsNode.entry { isDir := false, modeType := 0, size := 10 } false FsEntries.nil)
                FsEntries.nil))
            (FsEntries.cons "main.go".toList
              (FsNode.entry { isDir := false, modeType := 0, size := 20 } false FsEntries.nil)
              FsEntries.nil))
      else FsNode.missing }

/-- The same environment with the master index present on disk. -/
def sampleEnvWithMaster : Env := { sampleEnv with statOk := fun _ => true }

/-- An environment in which `IndexFromDir` names the same file `dir/index` at
every call, and the master index is present on disk. -/
def fixedNameEnv : Env :=
  { sampleEnv with
    indexFromDir := fun _ dir => dir ++ "/index".toList
    statOk := fun _ => true }

/-- The state of the sample run right after the first `Create` and `AddPaths`. -/
def sampleState : IndexState :=
  { ix := 0
    indexFileSize := 0
    shards := 1
    fromDirCalls := 1
    trace := [Op.create 0 "/idx/s~".toList, Op.addPaths 0 ["/src".toList]] }

/-- Three regular files in walk order: 1 byte, 100 GiB, 5 bytes. -/
def sampleFiles : List RegFile :=
  [{ path := "/src/b.go".toList, size := 1 },
    { path := "/src/a.go".toList, size := 107374182400 },
    { path := "/src/c.go".toList, size := 5 }]

/-- The flags of `cindex -indexdir /idx`. -/
def sampleFlags : Flags :=
  { listFlag := false, resetFlag := false, verboseFlag := false, indexDir := "/idx".toList }

/-- The flags of `cindex -reset -indexdir /idx`. -/
def sampleResetFlags : Flags := { sampleFlags with resetFlag := true }

end Cindex


namespace Csearch

/-- The calls csearch makes on the index engine and on the content reporter:
`index.Open(path)`, `ix.PostingQuery` on the index opened at `path` (`brute`
for the query `QAll`), and `g.File(name)` for the file identifier `fileid`
resolved to `name` by the index opened at `path`. -/
inductive Event where
  | openIndex (path : GoString)
  | postingQuery (path : GoString) (brute : Bool)
  | file (path : GoString) (fileid : Nat) (name : GoString)
deriving DecidableEq

/-- What the surroundings answer. `compileOk` and `filterOk` say that
`regexp.Compile` succeeds on the pattern and on `*fFlag`;
`matchString name b e` is `fre.MatchString(name, b, e)`; `clean` and `abs` are
`filepath.Clean` and `filepath.Abs` (`none` for an error);
`postingQuery path brute` and `name path fileid` are `PostingQuery` and `Name`
of the index opened at `path`; `fileMatch name` says that `g.File(name)` finds
a matching line; `tree` is the file tree at the index directory, as
`filepath.Walk` finds it through `Lstat`; `listing` is the result of
`ioutil.ReadDir(indexdir)` (`none` for an error), given on its own because
`ioutil.ReadDir` opens the path and so follows a symbolic link that the walk
does not descend into. -/
structure Env where
  compileOk : Bool
  filterOk : Bool
  matchString : GoString → Bool → Bool → Int
  clean : GoString → GoString
  abs : GoString → Option GoString
  postingQuery : GoString → Bool → List Nat
  name : GoString → Nat → GoString
  fileMatch : GoString → Bool
  tree : FsNode
  listing : Option (List (GoString × FileInfo))

/-- The command-line flags that steer the search. -/
structure Flags where
  fFlag : GoString
  iFlag : Bool
  verboseFlag : Bool
  concur : Bool
  bruteFlag : Bool
  indexDir : GoString

/-- The variables shared by `Main`, the walk callback and every goroutine: the
slice `post`, the reporter's flag `g.Match` (set by `g.File` when the file has
a matching line, never cleared), the package variable `matches`
(`matchesVar` here, `matches` being a reserved word), and the calls made so
far. -/
structure Shared where
  post : List Nat
  gMatch : Bool
  matchesVar : Bool
  trace : List Event

/-- The filter loop `for _, fileid := range post { ... }` with the slice
`fnames` built so far: an identifier is skipped when
`fre.MatchString(name, true, true) < 0` and appended otherwise. -/
def filterNames (env : Env) (path : GoString) : List Nat → List Nat → List Nat
  | [], fnames => fnames
  | fileid :: rest, fnames =>
    if env.matchString (env.name path fileid) true true < 0 then
      filterNames env path rest fnames
    else filterNames env path rest (fnames ++ [fileid])

/-- Modelled from the spec: `Grep.File` of `codesearch/regexp` and its field
`Match`, which are not in the two source files. The reporter searches the file
`name`, resolved from `fileid` by the index opened at `path`, and reports
whether a line matched; `g.Match` is true once any file reported a match and is
never cleared. -/
def grepFile (env : Env) (path : GoString) (fileid : Nat) (name : GoString) (s : Shared) :
    Shared :=
  { s with
    gMatch := s.gMatch || env.fileMatch name
    trace := s.trace ++ [Event.file path fileid name] }

/-- One turn of the report loop: `name := ix.Name(fileid); g.File(name)`. -/
def reportFile (env : Env) (path : GoString) (s : Shared) (fileid : Nat) : Shared :=
  grepFile env path fileid (env.name path fileid) s

/-- The report loop `for _, fileid := range post { ... }`. -/
def reportAll (env : Env) (path : GoString) : List Nat → Shared → Shared
  | [], s => s
  | fileid :: rest, s => reportAll env path rest (reportFile env path s fileid)

/-- The body of `if info.Size() > 0` in the walk callback: open the shard, run
the query into `post`, filter `post` when a file-name filter is set, report
every identifier of `post`, and copy `g.Match` to `matches`. -/
def searchShard (env : Env) (flags : Flags) (path : GoString) (s : Shared) : Shared :=
  let s1 : Shared :=
    { s with
      post := env.postingQuery path flags.bruteFlag
      trace := s.trace ++
        [Event.openIndex path, Event.postingQuery path flags.bruteFlag] }
  let s2 : Shared :=
    if flags.fFlag ≠ [] then { s1 with post := filterNames env path s1.post [] } else s1
  let s3 := reportAll env path s2.post s2
  { s3 with matchesVar := s3.gMatch }

/-- The function literal passed to `filepath.Walk` in `Main`. Its first
statement calls `info.IsDir()`, which panics on a nil `FileInfo`. -/
def searchFn (env : Env) (flags : Flags) (s : Shared) (path : GoString)
    (info : Option FileInfo) (err : Bool) : Shared × Ret :=
  match info with
  | none => (s, Ret.crash)
  | some i =>
    if i.isDir then (s, Ret.ok)
    else if err then (s, Ret.ok)
    else if i.size > 0 then (searchShard env flags path s, Ret.ok)
    else (s, Ret.ok)

/-! ### The goroutines of the concurrent mode -/

/-- Where a goroutine stands. `start`: launched; `queried`: `post` assigned
from `PostingQuery`; `filtered fnames`: the filter loop has run over the `post`
it read at its entry, `post = fnames` is still to come; `ready`: about to
enter the report loop; `reporting todo`: in the report loop, with the rest of
the `post` it read at the loop's entry; `loaded m`: `g.Match` read as `m`,
`matches` not yet written; `done`: returned. -/
inductive Pc where
  | start
  | queried
  | filtered (fnames : List Nat)
  | ready
  | reporting (todo : List Nat)
  | loaded (m : Bool)
  | done
deriving DecidableEq

/-- A goroutine: the directory entry it was launched for and where it stands. -/
structure Task where
  name : GoString
  info : FileInfo
  pc : Pc

/-- The path of the shard a goroutine opens:
`filepath.Abs(filepath.Clean(indexdir + "/" + info.Name()))`, the error of
`Abs` being dropped. -/
def taskPath (env : Env) (flags : Flags) (name : GoString) : GoString :=
  (env.abs (env.clean (flags.indexDir ++ '/' :: name))).getD []

/-- One step of a goroutine when every read of a shared variable returns the
value written last. Reading `post` and writing `post`, and reading `g.Match`
and writing `matches`, are separate steps; each `g.File` call is a step. The
goroutines are not synchronised, so the program has more runs than the
interleavings of these steps: `stepRacy` adds the reads that return another
value and `runPicks` the panic of a goroutine. -/
def stepTask (env : Env) (flags : Flags) (t : Task) (s : Shared) : Task × Shared :=
  match t.pc with
  | Pc.start =>
    if t.info.isDir then ({ t with pc := Pc.done }, s)
    else if t.info.size > 0 then
      ({ t with pc := Pc.queried },
        { s with
          post := env.postingQuery (taskPath env flags t.name) flags.bruteFlag
          trace := s.trace ++
            [Event.openIndex (taskPath env flags t.name),
              Event.postingQuery (taskPath env flags t.name) flags.bruteFlag] })
    else ({ t with pc := Pc.done }, s)
  | Pc.queried =>
    if flags.fFlag ≠ [] then
      ({ t with pc := Pc.filtered (filterNames env (taskPath env flags t.name) s.post []) }, s)
    else ({ t with pc := Pc.ready }, s)
  | Pc.filtered fnames => ({ t with pc := Pc.ready }, { s with post := fnames })
  | Pc.ready => ({ t with pc := Pc.reporting s.post }, s)
  | Pc.reporting [] => ({ t with pc := Pc.loaded s.gMatch }, s)
  | Pc.reporting (fileid :: rest) =>
    ({ t with pc := Pc.reporting rest }, reportFile env (taskPath env flags t.name) s fileid)
  | Pc.loaded m => ({ t with pc := Pc.done }, { s with matchesVar := m })
  | Pc.done => (t, s)

/-- The scheduler lets goroutine number `i` take one step. -/
def stepAt (env : Env) (flags : Flags) : Nat → List Task → Shared → List Task × Shared
  | _, [], s => ([], s)
  | 0, t :: ts, s => ((stepTask env flags t s).1 :: ts, (stepTask env flags t s).2)
  | i + 1, t :: ts, s => (t :: (stepAt env flags i ts s).1, (stepAt env flags i ts s).2)

/-- The goroutines run as the schedule says, one step per entry. -/
def runSchedule (env : Env) (flags : Flags) :
    List Nat → List Task → Shared → List Task × Shared
  | [], ts, s => (ts, s)
  | i :: rest, ts, s =>
    runSchedule env flags rest (stepAt env flags i ts s).1 (stepAt env flags i ts s).2

/-- A goroutine takes `n` steps on its own. -/
def runTask (env : Env) (flags : Flags) : Nat → Task → Shared → Task × Shared
  | 0, t, s => (t, s)
  | n + 1, t, s => runTask env flags n (stepTask env flags t s).1 (stepTask env flags t s).2

/-- A number of steps after which a goroutine running on its own has returned. -/
def stepsLeft (env : Env) (flags : Flags) (t : Task) (s : Shared) : Nat :=
  match t.pc with
  | Pc.start => (env.postingQuery (taskPath env flags t.name) flags.bruteFlag).length + 7
  | Pc.queried => s.post.length + 6
  | Pc.filtered fnames => fnames.length + 5
  | Pc.ready => s.post.length + 4
  | Pc.reporting todo => todo.length + 3
  | Pc.loaded _ => 1
  | Pc.done => 0

/-- The end of `wg.Wait()`: every goroutine that has not returned yet runs to
its end, one after the other. -/
def drain (env : Env) (flags : Flags) : List Task → Shared → List Task × Shared
  | [], s => ([], s)
  | t :: ts, s =>
    let r := runTask env flags (stepsLeft env flags t s) t s
    ((r.1 :: (drain env flags ts r.2).1), (drain env flags ts r.2).2)

/-- The children of a directory with their `Lstat` results; `none` when the
`Lstat` of a child fails. -/
def listEntries : FsEntries → Option (List (GoString × FileInfo))
  | FsEntries.nil => some []
  | FsEntries.cons _ FsNode.missing _ => none
  | FsEntries.cons name (FsNode.entry info _ _) rest =>
    (listEntries rest).map (fun l => (name, info) :: l)

/-- The top-level listing of the tree the walk visits: the children of the
root with their `Lstat` results, in the walk's order; `none` unless the root
is a directory that can be read and whose children can all be examined. It is
what `ioutil.ReadDir` returns when the index directory is a directory itself
(not a symbolic link to one) and does not change between the two calls. -/
def walkListing : FsNode → Option (List (GoString × FileInfo))
  | FsNode.missing => none
  | FsNode.entry info readErr entries =>
    if info.isDir && !readErr then listEntries entries else none

/-- The goroutine launched for a directory entry. -/
def mkTask (e : GoString × FileInfo) : Task := { name := e.1, info := e.2, pc := Pc.start }

/-- The block `if *concur { ... wg.Wait() }` after a successful `ReadDir` in a
run whose reads all return the value written last: one goroutine per entry,
interleaved as `sched` says and then run to their ends. -/
def fanOut (env : Env) (flags : Flags) (sched : List Nat)
    (fileLst : List (GoString × FileInfo)) (s : Shared) : List Task × Shared :=
  drain env flags (runSchedule env flags sched (fileLst.map mkTask) s).1
    (runSchedule env flags sched (fileLst.map mkTask) s).2

/-! ### The unsynchronised accesses of the goroutines

`post` (a three-word slice header), `g.Match` and `matches` are read and
written by all goroutines without a lock. A read that races with a write may
return a value that was never assigned (a pointer and a length from two
different assignments), and a goroutine that ranges over such a slice or
resolves an identifier read from it can panic, which ends the process with
status 2. -/

/-- One scheduling decision: the goroutine that takes the next step, what its
reads of `post` and of `g.Match` return in that step when it is not the value
written last (`none`: the value written last), and whether the goroutine
panics instead of taking the step. -/
structure Pick where
  task : Nat
  seenPost : Option (List Nat)
  seenMatch : Option Bool
  panics : Bool

/-- The decision to let goroutine `i` take a step whose reads return the
values written last. -/
def Pick.plain (i : Nat) : Pick :=
  { task := i, seenPost := none, seenMatch := none, panics := false }

/-- One step of a goroutine under a scheduling decision: what the goroutine
goes on with is computed from the values its reads return, what it writes and
the calls it makes are applied to the shared variables. -/
def stepRacy (env : Env) (flags : Flags) (p : Pick) (t : Task) (s : Shared) : Task × Shared :=
  ((stepTask env flags t
      { s with post := p.seenPost.getD s.post, gMatch := p.seenMatch.getD s.gMatch }).1,
    (stepTask env flags t s).2)

/-- The scheduler lets goroutine number `i` take one step under the decision
`p`. -/
def stepAtRacy (env : Env) (flags : Flags) (p : Pick) :
    Nat → List Task → Shared → List Task × Shared
  | _, [], s => ([], s)
  | 0, t :: ts, s => ((stepRacy env flags p t s).1 :: ts, (stepRacy env flags p t s).2)
  | i + 1, t :: ts, s =>
    (t :: (stepAtRacy env flags p i ts s).1, (stepAtRacy env flags p i ts s).2)

/-- Whether goroutine number `i` is still running, so that it can panic. -/
def canPanic : Nat → List Task → Bool
  | _, [] => false
  | 0, t :: _ => decide (t.pc ≠ Pc.done)
  | i + 1, _ :: ts => canPanic i ts

/-- The goroutines run as the decisions say, one step per decision, until a
goroutine panics; the flag tells whether one did. -/
def runPicks (env : Env) (flags : Flags) :
    List Pick → List Task → Shared → (List Task × Shared) × Bool
  | [], ts, s => ((ts, s), false)
  | p :: rest, ts, s =>
    if p.panics && canPanic p.task ts then ((ts, s), true)
    else
      runPicks env flags rest (stepAtRacy env flags p p.task ts s).1
        (stepAtRacy env flags p p.task ts s).2

/-- The block `if *concur { ... wg.Wait() }` after a successful `ReadDir`: one
goroutine per entry, run as `picks` says; unless one of them panics, the
goroutines that have not returned by then run to their ends. The flag tells
whether a goroutine panicked. -/
def concurBlock (env : Env) (flags : Flags) (picks : List Pick)
    (fileLst : List (GoString × FileInfo)) (s : Shared) : (List Task × Shared) × Bool :=
  if (runPicks env flags picks (fileLst.map mkTask) s).2 then
    runPicks env flags picks (fileLst.map mkTask) s
  else
    (drain env flags (runPicks env flags picks (fileLst.map mkTask) s).1.1
      (runPicks env flags picks (fileLst.map mkTask) s).1.2, false)

/-- How `Main` ends: the process exits inside it (`usage`, `log.Fatal`, or a
panic, which exits with status 2), or it returns. -/
inductive MainResult where
  | exited (code : Nat) (trace : List Event)
  | returned (s : Shared)

/-- The shared variables when `Main` starts. -/
def initShared : Shared := { post := [], gMatch := false, matchesVar := false, trace := [] }

/-- The call `filepath.Walk(indexdir, ...)` that ends `Main`; a panic of the
callback ends the process with status 2. -/
def walkIndexDir (env : Env) (flags : Flags) (s : Shared) : MainResult :=
  if (Walk (searchFn env flags) flags.indexDir env.tree s).2 = Ret.crash then
    MainResult.exited 2 (Walk (searchFn env flags) flags.indexDir env.tree s).1.trace
  else MainResult.returned (Walk (searchFn env flags) flags.indexDir env.tree s).1

/-- The function `Main` of csearch, the goroutines run as `picks` says. -/
def Main (env : Env) (flags : Flags) (args : List GoString) (picks : List Pick) : MainResult :=
  if args.length ≠ 1 then MainResult.exited 2 []
  else if !env.compileOk then MainResult.exited 1 []
  else if flags.fFlag ≠ [] && !env.filterOk then MainResult.exited 1 []
  else if flags.concur then
    match env.listing with
    | none => MainResult.returned initShared
    | some fileLst =>
      if (concurBlock env flags picks fileLst initShared).2 then
        MainResult.exited 2 (concurBlock env flags picks fileLst initShared).1.2.trace
      else walkIndexDir env flags (concurBlock env flags picks fileLst initShared).1.2
  else walkIndexDir env flags initShared

/-- How a run of csearch ends: the calls it made and its exit status. -/
structure Outcome where
  trace : List Event
  exit : Nat

/-- The function `main` of csearch. -/
def main (env : Env) (flags : Flags) (args : List GoString) (picks : List Pick) : Outcome :=
  match Main env flags args picks with
  | MainResult.exited code t => { trace := t, exit := code }
  | MainResult.returned s => { trace := s.trace, exit := if !s.matchesVar then 1 else 0 }

/-- Whether an event is a `g.File` call that finds a matching line. -/
def Event.isMatch (env : Env) : Event → Bool
  | Event.file _ _ name => env.fileMatch name
  | _ => false

/-- The identifiers handed to the content reporter through the index opened
at `path`, in the order of the calls. -/
def reportedIds (path : GoString) (t : List Event) : List Nat :=
  t.filterMap (fun ev => match ev with
    | Event.file p fileid _ => if p = path then some fileid else none
    | _ => none)


/-- Whether a directory entry is searched as a shard: not a directory, and
`info.Size() > 0`. -/
def isShard (info : FileInfo) : Bool := !info.isDir && decide (info.size > 0)

/-- A goroutine that has left its first step for a shard has opened and
queried that shard. -/
def Opened (env : Env) (flags : Flags) (t : Task) (s : Shared) : Prop :=
  t.pc ≠ Pc.start → isShard t.info = true →
    Event.openIndex (taskPath env flags t.name) ∈ s.trace ∧
    Event.postingQuery (taskPath env flags t.name) flags.bruteFlag ∈ s.trace

/-- The identifiers a shard search hands to the reporter: the posting result,
or with a file-name filter those of its identifiers whose name the filter
matches when anchored at both ends. -/
def survivors (env : Env) (flags : Flags) (path : GoString) : List Nat :=
  if flags.fFlag ≠ [] then
    (env.postingQuery path flags.bruteFlag).filter (fun fileid =>
      decide (0 ≤ env.matchString (env.name path fileid) true true))
  else env.postingQuery path flags.bruteFlag

/-! ### Concrete inputs -/

/-- An index directory `/idx` with the two non-empty shard files `a` and `b`. -/
def twoShardTree : FsNode :=
  FsNode.entry { isDir := true, modeType := 2147483648, size := 4096 } false
    (FsEntries.cons "a".toList
      (FsNode.entry { isDir := false, modeType := 0, size := 10 } false FsEntries.nil)
      (FsEntries.cons "b".toList
        (FsNode.entry { isDir := false, modeType := 0, size := 10 } false FsEntries.nil)
        FsEntries.nil))

/-- Shard `/idx/a` holds `/src/x.go` as file 0 and shard `/idx/b` holds
`/src/y.go` as file 0. The query finds no file in `/idx/a` and file 0 in
`/idx/b` (the brute-force query finds file 0 in both); only `/src/y.go` has a
matching line, and the file-name filter matches only `/src/y.go` entirely. -/
def twoShardEnv : Env :=
  { compileOk := true
    filterOk := true
    matchString := fun name _ _ => if name = "/src/y.go".toList then 0 else -1
    clean := fun p => p
    abs := fun p => some p
    postingQuery := fun path brute =>
      if path = "/idx/a".toList then (if brute then [0] else []) else [0]
    name := fun path _ => if path = "/idx/a".toList then "/src/x.go".toList else "/src/y.go".toList
    fileMatch := fun name => name = "/src/y.go".toList
    tree := twoShardTree
    listing := walkListing twoShardTree }

/-- The same surroundings with the index directory path naming a single shard
file instead of a directory; `ioutil.ReadDir` fails on it. -/
def oneFileEnv : Env :=
  { twoShardEnv with
    tree := FsNode.entry { isDir := false, modeType := 0, size := 10 } false FsEntries.nil
    listing := none }

/-- The surroundings of a run without `-indexdir`: `indexdir` is the empty
path, which neither `Lstat` nor `ioutil.ReadDir` can examine. -/
def noIndexDirEnv : Env := { twoShardEnv with tree := FsNode.missing, listing := none }

/-- What `ioutil.ReadDir` returns for the sample index directory. -/
def twoShardListing : List (GoString × FileInfo) :=
  [("a".toList, { isDir := false, modeType := 0, size := 10 }),
    ("b".toList, { isDir := false, modeType := 0, size := 10 })]

/-- The flags of `csearch -indexdir /idx`. -/
def plainFlags : Flags :=
  { fFlag := [], iFlag := false, verboseFlag := false, concur := false, bruteFlag := false,
    indexDir := "/idx".toList }

/-- The flags of `csearch -concur -indexdir /idx`. -/
def concurFlags : Flags := { plainFlags with concur := true }

/-- The flags of `csearch` without any flag. -/
def noFlags : Flags := { plainFlags with indexDir := [] }

/-- Both goroutines assign `post`; the goroutine of `/idx/a` then panics on
entering its report loop. -/
def panicPicks : List Pick :=
  [Pick.plain 0, Pick.plain 1, Pick.plain 0,
    { task := 0, seenPost := none, seenMatch := none, panics := true }]

/-- Both goroutines assign `post`; the goroutine of `/idx/a` then enters its
report loop with a read of `post` that returns a slice no goroutine assigned.
No goroutine panics. -/
def tornPicks : List Pick :=
  [Pick.plain 0, Pick.plain 1, Pick.plain 0,
    { task := 0, seenPost := some [7, 0], seenMatch := none, panics := false }]

end Csearch
section WalkLemmas

variable {σ : Type} (fn : σ → GoString → Option FileInfo → Bool → σ × Ret)

mutual
/-- A property of the state that every callback invocation keeps is kept by a
walk. -/
theorem walkNode_invariant (Inv : σ → Prop)
    (hfn : ∀ s p i e, Inv s → Inv (fn s p i e).1) :
    ∀ (node : FsNode) (path : GoString) (st : σ), Inv st → Inv (walkNode fn path node st).1
  | .missing, path, st, h => by
    simp only [walkNode]
    exact hfn _ _ _ _ h
  | .entry info readErr entries, path, st, h => by
    simp only [walkNode]
    split
    · exact hfn _ _ _ _ h
    · split
      · exact hfn _ _ _ _ h
      · exact walkEntries_invariant Inv hfn entries path _ (hfn _ _ _ _ h)
/-- The same for the loop over a directory's children. -/
theorem walkEntries_invariant (Inv : σ → Prop)
    (hfn : ∀ s p i e, Inv s → Inv (fn s p i e).1) :
    ∀ (entries : FsEntries) (path : GoString) (st : σ), Inv st →
      Inv (walkEntries fn path entries st).1
  | .nil, path, st, h => by
    simpa only [walkEntries] using h
  | .cons name node rest, path, st, h => by
    simp only [walkEntries]
    split
    · exact walkNode_invariant Inv hfn node _ st h
    · exact walkEntries_invariant Inv hfn rest path _ (walkNode_invariant Inv hfn node _ st h)
end

end WalkLemmas

section WalkLemmas2

variable {σ : Type} (fn : σ → GoString → Option FileInfo → Bool → σ × Ret)

/-- A property of the state that every callback invocation keeps is kept by
`filepath.Walk`. -/
theorem Walk_invariant (Inv : σ → Prop)
    (hfn : ∀ s p i e, Inv s → Inv (fn s p i e).1)
    (root : GoString) (node : FsNode) (st : σ) (h : Inv st) :
    Inv (Walk fn root node st).1 := by
  have hw := walkNode_invariant fn Inv hfn node root st h
  unfold Walk
  simp only
  split
  · exact hw
  · exact hw

end WalkLemmas2

namespace Cindex

/-! ## The path list -/

theorem le_nil_iff_eq (a : GoString) (h : a ≤ []) : a = [] := by
  cases a with
  | nil => rfl
  | cons c t => exact absurd (List.Lex.nil : List.Lex (· < ·) [] (c :: t)) (not_lt.mpr h)

theorem dropWhile_empty_of_sorted (l : List GoString) (h : l.Sorted (· ≤ ·)) :
    l.dropWhile (fun a => a == []) = l.filter (fun a => a != []) := by
  induction l with
  | nil => rfl
  | cons a t ih =>
    have ht : t.Sorted (· ≤ ·) := h.of_cons
    by_cases ha : a = []
    · subst ha
      rw [List.dropWhile_cons_of_pos (by simp), List.filter_cons_of_neg (by simp)]
      exact ih ht
    · have hall : ∀ b ∈ t, b ≠ [] := by
        intro b hb hb0
        have hab := List.rel_of_sorted_cons h b hb
        subst hb0
        exact ha (le_nil_iff_eq a hab)
      have hfil : t.filter (fun a => a != []) = t := by
        rw [List.filter_eq_self]
        intro b hb
        simpa using hall b hb
      rw [List.dropWhile_cons_of_neg (by simpa using ha),
        List.filter_cons_of_pos (by simpa using ha), hfil]

theorem filter_resolved (abs : GoString → Option GoString) (args : List GoString) :
    (args.map (fun arg => (abs arg).getD [])).filter (fun a => a != []) =
      (args.filterMap abs).filter (fun a => a != []) := by
  induction args with
  | nil => rfl
  | cons a t ih =>
    cases h : abs a with
    | none => simp [List.filterMap_cons, h, ih]
    | some p => simp [List.filterMap_cons, h, ih, List.filter_cons]

end Cindex

namespace Cindex

/-! ## Invariants of the walk -/

theorem walkArgs_invariant (env : Env) (dir : GoString) (Inv : IndexState → Prop)
    (hfn : ∀ s p i e, Inv s → Inv (walkFn env dir s p i e).1) :
    ∀ (args : List GoString) (st : IndexState), Inv st → Inv (walkArgs env dir args st).1
  | [], st, h => by simpa [walkArgs] using h
  | arg :: rest, st, h => by
    have h1 := Walk_invariant (walkFn env dir) Inv hfn arg (env.fs arg) st h
    simp only [walkArgs]
    split
    · exact h1
    · exact walkArgs_invariant env dir Inv hfn rest _ h1

theorem addRegular_trace (env : Env) (dir : GoString) (st : IndexState) (path : GoString)
    (size : Int) :
    (addRegular env dir st path size).trace =
        st.trace ++ [Op.addFile st.ix path] ∧
      (addRegular env dir st path size).ix = st.ix ∧
      (addRegular env dir st path size).shards = st.shards ∧
      (addRegular env dir st path size).fromDirCalls = st.fromDirCalls ∧
      wrapInt64 (st.indexFileSize + size) < rotateLimit ∧
      (addRegular env dir st path size).indexFileSize = wrapInt64 (st.indexFileSize + size)
    ∨
    (addRegular env dir st path size).trace =
        st.trace ++ [Op.flush st.ix, Op.create st.shards (env.indexFromDir st.fromDirCalls dir),
          Op.addFile st.shards path] ∧
      (addRegular env dir st path size).ix = st.shards ∧
      (addRegular env dir st path size).shards = st.shards + 1 ∧
      (addRegular env dir st path size).fromDirCalls = st.fromDirCalls + 1 ∧
      rotateLimit ≤ wrapInt64 (st.indexFileSize + size) ∧
      (addRegular env dir st path size).indexFileSize = 0 := by
  unfold addRegular
  by_cases h : wrapInt64 (st.indexFileSize + size) ≥ rotateLimit
  · right
    simp [h]
  · left
    simp [h]
    exact lt_of_not_ge h

/-- What one callback invocation does to the state: nothing, or, for a regular
file with a name that is not hidden and reported without error, the effect of
`addRegular`. -/
theorem walkFn_cases (env : Env) (dir : GoString) (st : IndexState) (path : GoString)
    (info : Option FileInfo) (err : Bool) :
    (walkFn env dir st path info err).1 = st ∨
      ∃ i, info = some i ∧ i.modeType = 0 ∧ err = false ∧
        hiddenElem (splitFile path) = false ∧
        walkFn env dir st path info err = (addRegular env dir st path i.size, Ret.ok) := by
  unfold walkFn
  by_cases hh : hiddenElem (splitFile path) = true
  · left
    rw [if_pos hh]
    cases info with
    | none => rfl
    | some i => simp only; split <;> rfl
  · rw [if_neg hh]
    have hh2 : hiddenElem (splitFile path) = false := by simpa using hh
    cases err with
    | true => left; rfl
    | false =>
      cases info with
      | none => left; rfl
      | some i =>
        by_cases hm : i.modeType = 0
        · right
          exact ⟨i, rfl, hm, rfl, hh2, by simp [hm]⟩
        · left
          simp [hm]

end Cindex

namespace Cindex

theorem walkFn_extends (env : Env) (dir : GoString) (t0 : List Op) (s : IndexState)
    (p : GoString) (i : Option FileInfo) (e : Bool) (h : ∃ ops, s.trace = t0 ++ ops) :
    ∃ ops, (walkFn env dir s p i e).1.trace = t0 ++ ops := by
  obtain ⟨ops, hs⟩ := h
  rcases walkFn_cases env dir s p i e with h1 | ⟨j, _, _, _, _, h1⟩
  · rw [h1]; exact ⟨ops, hs⟩
  · rw [h1]
    rcases addRegular_trace env dir s p j.size with h2 | h2
    · exact ⟨ops ++ [Op.addFile s.ix p], by rw [h2.1, hs, List.append_assoc]⟩
    · exact ⟨ops ++ [Op.flush s.ix, Op.create s.shards (env.indexFromDir s.fromDirCalls dir),
        Op.addFile s.shards p], by rw [h2.1, hs, List.append_assoc]⟩

theorem walkArgs_extends (env : Env) (dir : GoString) (args : List GoString)
    (st : IndexState) : ∃ ops, (walkArgs env dir args st).1.trace = st.trace ++ ops :=
  walkArgs_invariant env dir (fun s => ∃ ops, s.trace = st.trace ++ ops)
    (fun s p i e h => walkFn_extends env dir st.trace s p i e h) args st ⟨[], by simp⟩

/-- An indexing run starts with `index.Create(file)` and `AddPaths` of the path
list. -/
theorem main_trace_begins (env : Env) (flags : Flags) (args : List GoString)
    (hlist : flags.listFlag = false) (hargs : args ≠ []) :
    ∃ rest, (main env flags args).trace =
      Op.create 0 (filePath env flags) :: Op.addPaths 0 (pathList env args) :: rest := by
  obtain ⟨ops, hops⟩ := walkArgs_extends env flags.indexDir (pathList env args)
    (initState env flags (pathList env args))
  have hlen : (args.length == 0) = false := by
    cases args with
    | nil => exact absurd rfl hargs
    | cons a t => rfl
  unfold main
  simp only [hlen, Bool.and_false, hlist, Bool.false_eq_true, if_false]
  split
  · exact ⟨ops, by rw [hops]; rfl⟩
  · split
    · exact ⟨_, by rw [hops]; simp [initState]; rfl⟩
    · exact ⟨_, by rw [hops]; simp [initState]; rfl⟩

/-- C2 (amended): the path list that `main` hands to `AddPaths` and walks is
sorted in ascending byte-wise order, holds no empty string, and is a
rearrangement of the arguments whose absolute-path resolution succeeded, each
kept as often as it was passed (nothing is deduplicated); an indexing run
issues `AddPaths` with exactly this list right after the first `Create`. -/
theorem pathList_sorted_nonempty_perm (env : Env) (flags : Flags) (args : List GoString) :
    (pathList env args).Sorted (· ≤ ·) ∧
    ([] : GoString) ∉ pathList env args ∧
    (pathList env args).Perm ((args.filterMap env.abs).filter (fun a => a != [])) ∧
    (flags.listFlag = false → args ≠ [] →
      ∃ rest, (main env flags args).trace =
        Op.create 0 (filePath env flags) :: Op.addPaths 0 (pathList env args) :: rest) := by
  have hs : (sortStrings (args.map (fun arg => (env.abs arg).getD []))).Sorted (· ≤ ·) :=
    List.sorted_insertionSort _ _
  have hp : (sortStrings (args.map (fun arg => (env.abs arg).getD []))).Perm
      (args.map (fun arg => (env.abs arg).getD [])) := List.perm_insertionSort _ _
  have heq : pathList env args =
      (sortStrings (args.map (fun arg => (env.abs arg).getD []))).filter (fun a => a != []) :=
    dropWhile_empty_of_sorted _ hs
  refine ⟨?_, ?_, ?_, main_trace_begins env flags args⟩
  · rw [heq]
    exact hs.sublist (List.filter_sublist _)
  · rw [heq]
    intro h
    have := (List.mem_filter.mp h).2
    simp at this
  · rw [heq, ← filter_resolved]
    exact hp.filter _

/-- C2 (counterexample): the same path passed twice stays twice in the list. -/
theorem pathList_keeps_duplicates :
    pathList sampleEnv ["/src".toList, "/src".toList] = ["/src".toList, "/src".toList] ∧
    ¬ (pathList sampleEnv ["/src".toList, "/src".toList]).Nodup := by
  decide

end Cindex

namespace Cindex

/-! ## Hidden and temporary names -/

theorem walkFn_hidden (env : Env) (dir : GoString) (st : IndexState) (path : GoString)
    (info : Option FileInfo) (err : Bool) (hhid : hiddenElem (splitFile path) = true) :
    (walkFn env dir st path info err).1 = st := by
  rcases walkFn_cases env dir st path info err with h | ⟨_, _, _, _, hv, _⟩
  · exact h
  · rw [hhid] at hv; exact absurd hv (by decide)

theorem walkFn_hidden_dir (env : Env) (dir : GoString) (st : IndexState) (path : GoString)
    (dinfo : FileInfo) (err : Bool) (hhid : hiddenElem (splitFile path) = true)
    (hdir : dinfo.isDir = true) :
    walkFn env dir st path (some dinfo) err = (st, Ret.skipDir) := by
  unfold walkFn
  simp [hhid, hdir]

theorem walkNode_hidden_dir (env : Env) (dir : GoString) (st : IndexState) (path : GoString)
    (dinfo : FileInfo) (readErr : Bool) (entries : FsEntries)
    (hhid : hiddenElem (splitFile path) = true) (hdir : dinfo.isDir = true) :
    walkNode (walkFn env dir) path (FsNode.entry dinfo readErr entries) st =
      (st, Ret.skipDir) := by
  simp [walkNode, hdir, walkFn_hidden_dir env dir st path dinfo readErr hhid hdir]

/-- Every path passed to `AddFile` during a walk has a last element that is not
hidden. -/
theorem Walk_adds_visible (env : Env) (dir : GoString) (st : IndexState) (root : GoString)
    (tree : FsNode) (h : Nat) (p : GoString)
    (hmem : Op.addFile h p ∈ (Walk (walkFn env dir) root tree st).1.trace) :
    Op.addFile h p ∈ st.trace ∨ hiddenElem (splitFile p) = false := by
  refine Walk_invariant (walkFn env dir)
    (fun s => ∀ h p, Op.addFile h p ∈ s.trace →
      Op.addFile h p ∈ st.trace ∨ hiddenElem (splitFile p) = false)
    ?_ root tree st (fun _ _ hm => Or.inl hm) h p hmem
  intro s q i e hs h p hm
  rcases walkFn_cases env dir s q i e with h1 | ⟨j, _, _, _, hv, h1⟩
  · rw [h1] at hm; exact hs h p hm
  · rw [h1] at hm
    rcases addRegular_trace env dir s q j.size with h2 | h2
    · rw [h2.1] at hm
      rcases List.mem_append.mp hm with hm | hm
      · exact hs h p hm
      · simp at hm
        rw [hm.2]; exact Or.inr hv
    · rw [h2.1] at hm
      rcases List.mem_append.mp hm with hm | hm
      · exact hs h p hm
      · simp at hm
        rw [hm.2]; exact Or.inr hv

/-- C3: a path whose last element begins with `.`, `#` or `~` or ends with `~`
is never passed to `AddFile` (the callback leaves the state as it is, and no
path added during a walk of any tree has such a last element); when it is a
directory the callback returns `SkipDir` and the walk of the directory makes no
further call, so nothing below it is added and the walk goes on with the next
sibling; a regular file with any other name, reported without error, is passed
to `AddFile` on the current shard. -/
theorem hidden_names_never_indexed (env : Env) (dir : GoString) (st : IndexState)
    (root : GoString) (tree : FsNode)
    (path : GoString) (info : Option FileInfo) (err : Bool)
    (dinfo : FileInfo) (readErr : Bool) (entries : FsEntries)
    (parent name : GoString) (rest : FsEntries)
    (path2 : GoString) (info2 : FileInfo)
    (hhid : hiddenElem (splitFile path) = true)
    (hdir : dinfo.isDir = true)
    (hchild : hiddenElem (splitFile (joinPath parent name)) = true)
    (hvis : hiddenElem (splitFile path2) = false)
    (hreg : info2.modeType = 0) :
    (walkFn env dir st path info err).1 = st ∧
    (∀ h p, Op.addFile h p ∈ (Walk (walkFn env dir) root tree st).1.trace →
      Op.addFile h p ∈ st.trace ∨ hiddenElem (splitFile p) = false) ∧
    walkFn env dir st path (some dinfo) err = (st, Ret.skipDir) ∧
    walkNode (walkFn env dir) path (FsNode.entry dinfo readErr entries) st =
      (st, Ret.skipDir) ∧
    walkEntries (walkFn env dir) parent
        (FsEntries.cons name (FsNode.entry dinfo readErr entries) rest) st =
      walkEntries (walkFn env dir) parent rest st ∧
    (walkFn env dir st path2 (some info2) false).2 = Ret.ok ∧
    (∃ ops, (walkFn env dir st path2 (some info2) false).1.trace =
      st.trace ++ ops ++
        [Op.addFile (walkFn env dir st path2 (some info2) false).1.ix path2]) := by
  refine ⟨walkFn_hidden env dir st path info err hhid,
    fun h p => Walk_adds_visible env dir st root tree h p,
    walkFn_hidden_dir env dir st path dinfo err hhid hdir,
    walkNode_hidden_dir env dir st path dinfo readErr entries hhid hdir, ?_, ?_, ?_⟩
  · simp [walkEntries, walkNode_hidden_dir env dir st (joinPath parent name) dinfo readErr
      entries hchild hdir, FsNode.nonDir, hdir]
  · simp [walkFn, hvis, hreg]
  · have hw : walkFn env dir st path2 (some info2) false =
        (addRegular env dir st path2 info2.size, Ret.ok) := by
      simp [walkFn, hvis, hreg]
    rw [hw]
    rcases addRegular_trace env dir st path2 info2.size with h2 | h2
    · exact ⟨[], by simp [h2.1, h2.2.1]⟩
    · exact ⟨[Op.flush st.ix, Op.create st.shards (env.indexFromDir st.fromDirCalls dir)],
        by simp [h2.1, h2.2.1]⟩

end Cindex

namespace Cindex

/-- C3 (witness): the tree `/src` with the hidden directory `.git` and the
regular file `main.go`. -/
theorem hidden_names_never_indexed_witness :
    (walkFn sampleEnv "/idx".toList sampleState "/src/.git".toList none true).1 = sampleState ∧
    (∀ h p, Op.addFile h p ∈ (Walk (walkFn sampleEnv "/idx".toList) "/src".toList
        (sampleEnv.fs "/src".toList) sampleState).1.trace →
      Op.addFile h p ∈ sampleState.trace ∨ hiddenElem (splitFile p) = false) ∧
    walkFn sampleEnv "/idx".toList sampleState "/src/.git".toList
        (some { isDir := true, modeType := 2147483648, size := 4096 }) true =
      (sampleState, Ret.skipDir) ∧
    walkNode (walkFn sampleEnv "/idx".toList) "/src/.git".toList
        (FsNode.entry { isDir := true, modeType := 2147483648, size := 4096 } false
          (FsEntries.cons "config".toList
            (FsNode.entry { isDir := false, modeType := 0, size := 10 } false FsEntries.nil)
            FsEntries.nil)) sampleState =
      (sampleState, Ret.skipDir) ∧
    walkEntries (walkFn sampleEnv "/idx".toList) "/src".toList
        (FsEntries.cons ".git".toList
          (FsNode.entry { isDir := true, modeType := 2147483648, size := 4096 } false
            (FsEntries.cons "config".toList
              (FsNode.entry { isDir := false, modeType := 0, size := 10 } false FsEntries.nil)
              FsEntries.nil))
          (FsEntries.cons "main.go".toList
            (FsNode.entry { isDir := false, modeType := 0, size := 20 } false FsEntries.nil)
            FsEntries.nil)) sampleState =
      walkEntries (walkFn sampleEnv "/idx".toList) "/src".toList
        (FsEntries.cons "main.go".toList
          (FsNode.entry { isDir := false, modeType := 0, size := 20 } false FsEntries.nil)
          FsEntries.nil) sampleState ∧
    (walkFn sampleEnv "/idx".toList sampleState "/src/main.go".toList
      (some { isDir := false, modeType := 0, size := 20 }) false).2 = Ret.ok ∧
    (∃ ops, (walkFn sampleEnv "/idx".toList sampleState "/src/main.go".toList
        (some { isDir := false, modeType := 0, size := 20 }) false).1.trace =
      sampleState.trace ++ ops ++
        [Op.addFile (walkFn sampleEnv "/idx".toList sampleState "/src/main.go".toList
          (some { isDir := false, modeType := 0, size := 20 }) false).1.ix
          "/src/main.go".toList]) :=
  hidden_names_never_indexed sampleEnv "/idx".toList sampleState "/src".toList
    (sampleEnv.fs "/src".toList) "/src/.git".toList none true
    { isDir := true, modeType := 2147483648, size := 4096 } false
    (FsEntries.cons "config".toList
      (FsNode.entry { isDir := false, modeType := 0, size := 10 } false FsEntries.nil)
      FsEntries.nil)
    "/src".toList ".git".toList
    (FsEntries.cons "main.go".toList
      (FsNode.entry { isDir := false, modeType := 0, size := 20 } false FsEntries.nil)
      FsEntries.nil)
    "/src/main.go".toList { isDir := false, modeType := 0, size := 20 }
    (by decide) (by decide) (by decide) (by decide) (by decide)

/-! ## Shards and rotation -/

theorem shardConcat_congr (t t1 : List Op) :
    ∀ n : Nat, (∀ h, h < n → shardFiles h t1 = shardFiles h t) →
      shardConcat n t1 = shardConcat n t
  | 0, _ => rfl
  | n + 1, hh => by
    simp only [shardConcat]
    rw [shardConcat_congr t t1 n (fun h hlt => hh h (Nat.lt_succ_of_lt hlt)),
      hh n (Nat.lt_succ_self n)]

theorem shardFiles_addFile (h m : Nat) (t : List Op) (p : GoString) :
    shardFiles h (t ++ [Op.addFile m p]) =
      shardFiles h t ++ (if m = h then [p] else []) := by
  simp only [shardFiles, List.filterMap_append, List.filterMap_cons, List.filterMap_nil]
  split <;> simp_all

theorem shardFiles_rotate (h m k c : Nat) (t : List Op) (p q : GoString) :
    shardFiles h (t ++ [Op.flush k, Op.create c q, Op.addFile m p]) =
      shardFiles h t ++ (if m = h then [p] else []) := by
  simp only [shardFiles, List.filterMap_append, List.filterMap_cons, List.filterMap_nil]
  split <;> simp_all

theorem addedFiles_addFile (m : Nat) (t : List Op) (p : GoString) :
    addedFiles (t ++ [Op.addFile m p]) = addedFiles t ++ [p] := by
  simp [addedFiles, List.filterMap_append]

theorem addedFiles_rotate (m k c : Nat) (t : List Op) (p q : GoString) :
    addedFiles (t ++ [Op.flush k, Op.create c q, Op.addFile m p]) = addedFiles t ++ [p] := by
  simp [addedFiles, List.filterMap_append]

end Cindex

namespace Cindex

theorem walkFn_regular (env : Env) (dir : GoString) (st : IndexState) (path : GoString)
    (size : Int) (hvis : hiddenElem (splitFile path) = false) :
    walkFn env dir st path (some { isDir := false, modeType := 0, size := size }) false =
      (addRegular env dir st path size, Ret.ok) := by
  simp [walkFn, hvis]

/-- One `addRegular` keeps the shard bookkeeping: the current shard is the
newest one, later handles have no files, the concatenation of the shards is the
list of added files, which grows by the new path; older shards are untouched. -/
theorem addRegular_shards (env : Env) (dir : GoString) (st : IndexState) (path : GoString)
    (size : Int)
    (hA : st.shards = st.ix + 1)
    (hB : ∀ h, st.ix < h → shardFiles h st.trace = [])
    (hC : shardConcat st.shards st.trace = addedFiles st.trace) :
    (addRegular env dir st path size).shards = (addRegular env dir st path size).ix + 1 ∧
    (∀ h, (addRegular env dir st path size).ix < h →
      shardFiles h (addRegular env dir st path size).trace = []) ∧
    shardConcat (addRegular env dir st path size).shards
        (addRegular env dir st path size).trace =
      addedFiles (addRegular env dir st path size).trace ∧
    addedFiles (addRegular env dir st path size).trace = addedFiles st.trace ++ [path] ∧
    st.ix ≤ (addRegular env dir st path size).ix ∧
    (∀ h, h < st.ix →
      shardFiles h (addRegular env dir st path size).trace = shardFiles h st.trace) := by
  rcases addRegular_trace env dir st path size with ⟨ht, hix, hsh, _, _, _⟩ | ⟨ht, hix, hsh, _, _, _⟩
  · rw [ht, hix, hsh]
    refine ⟨hA, ?_, ?_, addedFiles_addFile _ _ _, le_refl _, ?_⟩
    · intro h hlt
      rw [shardFiles_addFile, hB h hlt, if_neg (Nat.ne_of_lt hlt)]
      rfl
    · rw [hA, shardConcat, shardFiles_addFile, if_pos rfl, addedFiles_addFile, ← hC, hA,
        shardConcat, ← List.append_assoc]
      congr 2
      apply shardConcat_congr
      intro h hlt
      rw [shardFiles_addFile, if_neg (Nat.ne_of_gt hlt), List.append_nil]
    · intro h hlt
      rw [shardFiles_addFile, if_neg (Nat.ne_of_gt hlt), List.append_nil]
  · rw [ht, hix, hsh]
    refine ⟨rfl, ?_, ?_, addedFiles_rotate _ _ _ _ _ _, by omega, ?_⟩
    · intro h hlt
      rw [shardFiles_rotate, hB h (by omega), if_neg (Nat.ne_of_lt hlt)]
      rfl
    · rw [shardConcat, shardFiles_rotate, if_pos rfl, addedFiles_rotate, ← hC,
        hB st.shards (by omega), List.nil_append]
      congr 1
      apply shardConcat_congr
      intro h hlt
      rw [shardFiles_rotate, if_neg (Nat.ne_of_gt hlt), List.append_nil]
    · intro h hlt
      rw [shardFiles_rotate, if_neg (by omega), List.append_nil]

theorem visitFiles_shards (env : Env) (dir : GoString) :
    ∀ (files : List RegFile) (st : IndexState),
      (∀ f ∈ files, hiddenElem (splitFile f.path) = false) →
      st.shards = st.ix + 1 →
      (∀ h, st.ix < h → shardFiles h st.trace = []) →
      shardConcat st.shards st.trace = addedFiles st.trace →
      (visitFiles env dir files st).shards = (visitFiles env dir files st).ix + 1 ∧
      (∀ h, (visitFiles env dir files st).ix < h →
        shardFiles h (visitFiles env dir files st).trace = []) ∧
      shardConcat (visitFiles env dir files st).shards (visitFiles env dir files st).trace =
        addedFiles (visitFiles env dir files st).trace ∧
      addedFiles (visitFiles env dir files st).trace =
        addedFiles st.trace ++ files.map RegFile.path ∧
      st.ix ≤ (visitFiles env dir files st).ix ∧
      (∀ h, h < st.ix →
        shardFiles h (visitFiles env dir files st).trace = shardFiles h st.trace)
  | [], st, _, hA, hB, hC => by
    exact ⟨hA, hB, hC, by simp [visitFiles], le_refl _, fun _ _ => rfl⟩
  | f :: rest, st, hvis, hA, hB, hC => by
    have hf := hvis f (List.mem_cons_self _ _)
    have hstep := addRegular_shards env dir st f.path f.size hA hB hC
    have ih := visitFiles_shards env dir rest (addRegular env dir st f.path f.size)
      (fun g hg => hvis g (List.mem_cons_of_mem _ hg)) hstep.1 hstep.2.1 hstep.2.2.1
    simp only [visitFiles, walkFn_regular env dir st f.path f.size hf, List.map_cons]
    refine ⟨ih.1, ih.2.1, ih.2.2.1, ?_, le_trans hstep.2.2.2.2.1 ih.2.2.2.2.1, ?_⟩
    · rw [ih.2.2.2.1, hstep.2.2.2.1, List.append_assoc]
      rfl
    · intro h hlt
      rw [ih.2.2.2.2.2 h (lt_of_lt_of_le hlt hstep.2.2.2.2.1), hstep.2.2.2.2.2 h hlt]

end Cindex

namespace Cindex

theorem shardFiles_subset_concat (t : List Op) (h : Nat) :
    ∀ n : Nat, h < n → shardFiles h t ⊆ shardConcat n t
  | 0, hlt => absurd hlt (Nat.not_lt_zero _)
  | n + 1, hlt => by
    simp only [shardConcat]
    rcases Nat.lt_succ_iff_lt_or_eq.mp hlt with h1 | h1
    · exact fun x hx => List.mem_append_left _ (shardFiles_subset_concat t h n h1 hx)
    · subst h1
      exact fun x hx => List.mem_append_right _ hx

theorem shardFiles_disjoint_of_nodup (t : List Op) :
    ∀ n : Nat, (shardConcat n t).Nodup → ∀ h1 h2, h1 < h2 → h2 < n →
      List.Disjoint (shardFiles h1 t) (shardFiles h2 t)
  | 0, _, _, _, _, hlt => absurd hlt (Nat.not_lt_zero _)
  | n + 1, hnd, h1, h2, h12, hlt => by
    simp only [shardConcat] at hnd
    have hparts := List.nodup_append.mp hnd
    rcases Nat.lt_succ_iff_lt_or_eq.mp hlt with h | h
    · exact shardFiles_disjoint_of_nodup t n hparts.1 h1 h2 h12 h
    · subst h
      intro x hx1 hx2
      exact hparts.2.2 (shardFiles_subset_concat t h1 h2 h12 hx1) hx2

theorem initState_shards (env : Env) (flags : Flags) (paths : List GoString) :
    (initState env flags paths).shards = (initState env flags paths).ix + 1 ∧
    (∀ h, shardFiles h (initState env flags paths).trace = []) ∧
    shardConcat (initState env flags paths).shards (initState env flags paths).trace =
      addedFiles (initState env flags paths).trace ∧
    addedFiles (initState env flags paths).trace = [] := by
  refine ⟨rfl, fun h => rfl, rfl, rfl⟩

/-- C4: for every sequence of regular files with names that are not hidden,
visited in order from the state after the first `Create`, the paths passed to
`AddFile` are exactly the visited paths in walk order (one call per file), the
file lists of the shards concatenated in the order of creation give the walk
order again, no handle beyond the created shards holds a file, and when the
visited paths are distinct the file lists of two different shards share no
path. -/
theorem every_file_on_one_shard (env : Env) (flags : Flags) (paths : List GoString)
    (files : List RegFile)
    (hvis : ∀ f ∈ files, hiddenElem (splitFile f.path) = false) :
    addedFiles (visitFiles env flags.indexDir files (initState env flags paths)).trace =
      files.map RegFile.path ∧
    shardConcat (visitFiles env flags.indexDir files (initState env flags paths)).shards
        (visitFiles env flags.indexDir files (initState env flags paths)).trace =
      files.map RegFile.path ∧
    (∀ h, (visitFiles env flags.indexDir files (initState env flags paths)).shards ≤ h →
      shardFiles h (visitFiles env flags.indexDir files (initState env flags paths)).trace =
        []) ∧
    ((files.map RegFile.path).Nodup → ∀ h1 h2, h1 ≠ h2 →
      List.Disjoint
        (shardFiles h1 (visitFiles env flags.indexDir files (initState env flags paths)).trace)
        (shardFiles h2
          (visitFiles env flags.indexDir files (initState env flags paths)).trace)) := by
  have hi := initState_shards env flags paths
  have hv := visitFiles_shards env flags.indexDir files (initState env flags paths) hvis
    hi.1 (fun h _ => hi.2.1 h) hi.2.2.1
  have hadd : addedFiles
      (visitFiles env flags.indexDir files (initState env flags paths)).trace =
      files.map RegFile.path := by
    rw [hv.2.2.2.1, hi.2.2.2, List.nil_append]
  have hbeyond : ∀ h,
      (visitFiles env flags.indexDir files (initState env flags paths)).shards ≤ h →
      shardFiles h (visitFiles env flags.indexDir files (initState env flags paths)).trace =
        [] := fun h hle => hv.2.1 h (by rw [hv.1] at hle; omega)
  refine ⟨hadd, by rw [hv.2.2.1, hadd], hbeyond, ?_⟩
  intro hnd
  have hnd2 : (shardConcat
      (visitFiles env flags.indexDir files (initState env flags paths)).shards
      (visitFiles env flags.indexDir files (initState env flags paths)).trace).Nodup := by
    rw [hv.2.2.1, hadd]; exact hnd
  have key : ∀ a b, a < b → List.Disjoint
      (shardFiles a (visitFiles env flags.indexDir files (initState env flags paths)).trace)
      (shardFiles b
        (visitFiles env flags.indexDir files (initState env flags paths)).trace) := by
    intro a b hab
    by_cases hb : b < (visitFiles env flags.indexDir files (initState env flags paths)).shards
    · exact shardFiles_disjoint_of_nodup _ _ hnd2 a b hab hb
    · rw [hbeyond b (not_lt.mp hb)]
      exact List.disjoint_nil_right _
  intro h1 h2 hne
  rcases Nat.lt_or_gt_of_ne hne with h | h
  · exact key h1 h2 h
  · exact (key h2 h1 h).symm

set_option maxRecDepth 100000 in
/-- C4 (witness): the files `/src/b.go` (1 byte), `/src/a.go` (100 GiB) and
`/src/c.go` (5 bytes), visited in this order: the first stays on shard 0, the
rotation puts the other two on shard 1. -/
theorem every_file_on_one_shard_witness :
    addedFiles (visitFiles sampleEnv sampleFlags.indexDir sampleFiles
        (initState sampleEnv sampleFlags ["/src".toList])).trace =
      ["/src/b.go".toList, "/src/a.go".toList, "/src/c.go".toList] ∧
    shardConcat 2 (visitFiles sampleEnv sampleFlags.indexDir sampleFiles
        (initState sampleEnv sampleFlags ["/src".toList])).trace =
      ["/src/b.go".toList, "/src/a.go".toList, "/src/c.go".toList] :=
  ⟨(every_file_on_one_shard sampleEnv sampleFlags ["/src".toList] sampleFiles
      (by decide)).1,
    (every_file_on_one_shard sampleEnv sampleFlags ["/src".toList] sampleFiles
      (by decide)).2.1⟩

end Cindex

namespace Cindex

theorem wrapInt64_of_fits (x : Int) (h0 : 0 ≤ x) (h1 : x < 2 ^ 63) : wrapInt64 x = x := by
  unfold wrapInt64
  have h2 : (x + 2 ^ 63) % 2 ^ 64 = x + 2 ^ 63 :=
    Int.emod_eq_of_lt (by omega) (by omega)
  omega

theorem visitFiles_append (env : Env) (dir : GoString) :
    ∀ (a b : List RegFile) (st : IndexState),
      visitFiles env dir (a ++ b) st = visitFiles env dir b (visitFiles env dir a st)
  | [], _, _ => rfl
  | f :: rest, b, st => by
    simp only [List.cons_append, visitFiles]
    exact visitFiles_append env dir rest b _

theorem visitFiles_extends (env : Env) (dir : GoString) :
    ∀ (files : List RegFile) (st : IndexState),
      ∃ ops, (visitFiles env dir files st).trace = st.trace ++ ops
  | [], st => ⟨[], by simp [visitFiles]⟩
  | f :: rest, st => by
    obtain ⟨ops1, h1⟩ := walkFn_extends env dir st.trace st f.path
      (some { isDir := false, modeType := 0, size := f.size }) false ⟨[], by simp⟩
    obtain ⟨ops2, h2⟩ := visitFiles_extends env dir rest
      (walkFn env dir st f.path (some { isDir := false, modeType := 0, size := f.size })
        false).1
    exact ⟨ops1 ++ ops2, by simp only [visitFiles]; rw [h2, h1, List.append_assoc]⟩

/-- While the counter stays below the limit every file goes to the current
shard and nothing else happens. -/
theorem visitFiles_below_limit (env : Env) (dir : GoString) :
    ∀ (files : List RegFile) (st : IndexState),
      (∀ g ∈ files, hiddenElem (splitFile g.path) = false) →
      (∀ g ∈ files, 0 ≤ g.size) →
      0 ≤ st.indexFileSize →
      st.indexFileSize + (files.map RegFile.size).sum < rotateLimit →
      (visitFiles env dir files st).trace =
        st.trace ++ files.map (fun g => Op.addFile st.ix g.path) ∧
      (visitFiles env dir files st).ix = st.ix ∧
      (visitFiles env dir files st).shards = st.shards ∧
      (visitFiles env dir files st).fromDirCalls = st.fromDirCalls ∧
      (visitFiles env dir files st).indexFileSize =
        st.indexFileSize + (files.map RegFile.size).sum
  | [], st, _, _, _, _ => by simp [visitFiles]
  | f :: rest, st, hvis, hsize, h0, hlt => by
    have hf := hvis f (List.mem_cons_self _ _)
    have hfs := hsize f (List.mem_cons_self _ _)
    have hrest : 0 ≤ (rest.map RegFile.size).sum :=
      List.sum_nonneg (by
        intro x hx
        obtain ⟨g, hg, rfl⟩ := List.mem_map.mp hx
        exact hsize g (List.mem_cons_of_mem _ hg))
    simp only [List.map_cons, List.sum_cons] at hlt
    have hlim : rotateLimit < 2 ^ 63 := by decide
    have hw : wrapInt64 (st.indexFileSize + f.size) = st.indexFileSize + f.size :=
      wrapInt64_of_fits _ (by omega) (by omega)
    rcases addRegular_trace env dir st f.path f.size with
      ⟨ht, hix, hsh, hfd, _, hc⟩ | ⟨_, _, _, _, hge, _⟩
    · have ih := visitFiles_below_limit env dir rest (addRegular env dir st f.path f.size)
        (fun g hg => hvis g (List.mem_cons_of_mem _ hg))
        (fun g hg => hsize g (List.mem_cons_of_mem _ hg))
        (by rw [hc, hw]; omega) (by rw [hc, hw]; omega)
      simp only [visitFiles, walkFn_regular env dir st f.path f.size hf, List.map_cons,
        List.sum_cons]
      rw [ih.1, ih.2.1, ih.2.2.1, ih.2.2.2.1, ih.2.2.2.2, ht, hix, hsh, hfd, hc, hw]
      refine ⟨by simp, rfl, rfl, rfl, by omega⟩
    · rw [hw] at hge
      omega

end Cindex

namespace Cindex

theorem shardFiles_append (h : Nat) (t1 t2 : List Op) :
    shardFiles h (t1 ++ t2) = shardFiles h t1 ++ shardFiles h t2 := by
  simp [shardFiles, List.filterMap_append]

theorem shardFiles_map_addFile (h k : Nat) :
    ∀ files : List RegFile, shardFiles h (files.map (fun g => Op.addFile k g.path)) =
      if k = h then files.map RegFile.path else []
  | [] => by simp [shardFiles]
  | g :: rest => by
    have ih := shardFiles_map_addFile h k rest
    simp only [shardFiles, List.map_cons, List.filterMap_cons] at ih ⊢
    by_cases hk : k = h
    · simp only [hk, if_true] at ih ⊢
      rw [ih]
    · simp only [hk, if_false] at ih ⊢
      exact ih

/-- C5 (amended): when the byte counter first reaches the limit of 100 GiB upon
file `f` (the files `before` keep it below, and no `int64` addition
overflows), the shard active so far is flushed and a new shard is created
before `f` is added: shard 0 holds exactly the files before `f`, the new shard
begins with `f` itself, and the counter restarts at zero. -/
theorem rotation_before_addFile (env : Env) (flags : Flags) (paths : List GoString)
    (before : List RegFile) (f : RegFile) (after : List RegFile)
    (hvis : ∀ g ∈ before ++ f :: after, hiddenElem (splitFile g.path) = false)
    (hsize : ∀ g ∈ before, 0 ≤ g.size)
    (hbelow : (before.map RegFile.size).sum < rotateLimit)
    (hreach : rotateLimit ≤ (before.map RegFile.size).sum + f.size)
    (hfit : (before.map RegFile.size).sum + f.size < 2 ^ 63) :
    (visitFiles env flags.indexDir (before ++ [f]) (initState env flags paths)).trace =
      (initState env flags paths).trace ++ before.map (fun g => Op.addFile 0 g.path) ++
        [Op.flush 0,
          Op.create 1
            (env.indexFromDir (initState env flags paths).fromDirCalls flags.indexDir),
          Op.addFile 1 f.path] ∧
    (visitFiles env flags.indexDir (before ++ [f])
      (initState env flags paths)).indexFileSize = 0 ∧
    shardFiles 0
        (visitFiles env flags.indexDir (before ++ f :: after)
          (initState env flags paths)).trace =
      before.map RegFile.path ∧
    (∃ more, shardFiles 1
        (visitFiles env flags.indexDir (before ++ f :: after)
          (initState env flags paths)).trace =
      f.path :: more) := by
  have hvb : ∀ g ∈ before, hiddenElem (splitFile g.path) = false :=
    fun g hg => hvis g (List.mem_append_left _ hg)
  have hvf : hiddenElem (splitFile f.path) = false :=
    hvis f (List.mem_append_right _ (List.mem_cons_self _ _))
  have hva : ∀ g ∈ after, hiddenElem (splitFile g.path) = false :=
    fun g hg => hvis g (List.mem_append_right _ (List.mem_cons_of_mem _ hg))
  have hsum : 0 ≤ (before.map RegFile.size).sum :=
    List.sum_nonneg (by
      intro x hx
      obtain ⟨g, hg, rfl⟩ := List.mem_map.mp hx
      exact hsize g hg)
  have hb := visitFiles_below_limit env flags.indexDir before (initState env flags paths)
    hvb hsize (le_refl _) (by simpa [initState] using hbelow)
  have hc0 : (visitFiles env flags.indexDir before (initState env flags paths)).indexFileSize =
      (before.map RegFile.size).sum := by
    rw [hb.2.2.2.2]; simp [initState]
  have hw : wrapInt64 ((visitFiles env flags.indexDir before
      (initState env flags paths)).indexFileSize + f.size) =
      (before.map RegFile.size).sum + f.size := by
    rw [hc0]; exact wrapInt64_of_fits _ (by omega) hfit
  -- the step on `f` rotates
  have hstep : (visitFiles env flags.indexDir (before ++ [f])
      (initState env flags paths)) =
      addRegular env flags.indexDir
        (visitFiles env flags.indexDir before (initState env flags paths)) f.path f.size := by
    rw [visitFiles_append]
    simp only [visitFiles, walkFn_regular env flags.indexDir _ f.path f.size hvf]
  have hrot := addRegular_trace env flags.indexDir
    (visitFiles env flags.indexDir before (initState env flags paths)) f.path f.size
  rcases hrot with ⟨_, _, _, _, hlt, _⟩ | ⟨ht, hix, hsh, _, _, hz⟩
  · rw [hw] at hlt; omega
  rw [← hstep] at ht hix hsh hz
  rw [hb.1, hb.2.1, hb.2.2.1, hb.2.2.2.1] at ht
  have hi0 : (initState env flags paths).ix = 0 := rfl
  have hs1 : (initState env flags paths).shards = 1 := rfl
  rw [hi0, hs1] at ht
  rw [hb.2.2.1, hs1] at hix hsh
  have hinit := initState_shards env flags paths
  have hinv := visitFiles_shards env flags.indexDir (before ++ [f])
    (initState env flags paths)
    (by
      intro g hg
      rcases List.mem_append.mp hg with h | h
      · exact hvb g h
      · rw [List.mem_singleton.mp h]; exact hvf)
    hinit.1 (fun h _ => hinit.2.1 h) hinit.2.2.1
  have hfull : visitFiles env flags.indexDir (before ++ f :: after)
      (initState env flags paths) =
      visitFiles env flags.indexDir after
        (visitFiles env flags.indexDir (before ++ [f]) (initState env flags paths)) := by
    rw [← visitFiles_append, List.append_assoc]; rfl
  have hrest := visitFiles_shards env flags.indexDir after
    (visitFiles env flags.indexDir (before ++ [f]) (initState env flags paths))
    hva hinv.1 hinv.2.1 hinv.2.2.1
  obtain ⟨ops, hops⟩ := visitFiles_extends env flags.indexDir after
    (visitFiles env flags.indexDir (before ++ [f]) (initState env flags paths))
  refine ⟨ht, hz, ?_, ?_⟩
  · rw [hfull, hrest.2.2.2.2.2 0 (by rw [hix]; exact Nat.zero_lt_one), ht,
      shardFiles_rotate, shardFiles_append, shardFiles_map_addFile, hinit.2.1 0]
    simp
  · refine ⟨shardFiles 1 ops, ?_⟩
    rw [hfull, hops, ht, shardFiles_append, shardFiles_rotate, shardFiles_append,
      shardFiles_map_addFile, hinit.2.1 1]
    simp

end Cindex

namespace Cindex

set_option maxRecDepth 100000 in
/-- C5 (witness): `/src/b.go` (1 byte), then `/src/a.go` (100 GiB), then
`/src/c.go`. -/
theorem rotation_before_addFile_witness :
    shardFiles 0 (visitFiles sampleEnv sampleFlags.indexDir sampleFiles
        (initState sampleEnv sampleFlags ["/src".toList])).trace = ["/src/b.go".toList] ∧
    (∃ more, shardFiles 1 (visitFiles sampleEnv sampleFlags.indexDir sampleFiles
        (initState sampleEnv sampleFlags ["/src".toList])).trace =
      "/src/a.go".toList :: more) :=
  ⟨(rotation_before_addFile sampleEnv sampleFlags ["/src".toList]
      [{ path := "/src/b.go".toList, size := 1 }]
      { path := "/src/a.go".toList, size := 107374182400 }
      [{ path := "/src/c.go".toList, size := 5 }]
      (by decide) (by decide) (by decide) (by decide) (by decide)).2.2.1,
    (rotation_before_addFile sampleEnv sampleFlags ["/src".toList]
      [{ path := "/src/b.go".toList, size := 1 }]
      { path := "/src/a.go".toList, size := 107374182400 }
      [{ path := "/src/c.go".toList, size := 5 }]
      (by decide) (by decide) (by decide) (by decide) (by decide)).2.2.2⟩

set_option maxRecDepth 100000 in
/-- C5 (counterexample): the counter reaches 100 GiB upon `/src/a.go`, the
second of three files. The file is not added to shard 0, the shard active
before the rotation; the new shard 1 begins with it and not with the next file
`/src/c.go`. -/
theorem rotation_example_file_opens_new_shard :
    (visitFiles sampleEnv sampleFlags.indexDir sampleFiles
        (initState sampleEnv sampleFlags ["/src".toList])).trace =
      [Op.create 0 "/idx/s".toList, Op.addPaths 0 ["/src".toList],
        Op.addFile 0 "/src/b.go".toList, Op.flush 0, Op.create 1 "/idx/ss".toList,
        Op.addFile 1 "/src/a.go".toList, Op.addFile 1 "/src/c.go".toList] ∧
    "/src/a.go".toList ∉ shardFiles 0 (visitFiles sampleEnv sampleFlags.indexDir sampleFiles
        (initState sampleEnv sampleFlags ["/src".toList])).trace ∧
    (shardFiles 1 (visitFiles sampleEnv sampleFlags.indexDir sampleFiles
        (initState sampleEnv sampleFlags ["/src".toList])).trace).head? ≠
      some "/src/c.go".toList := by
  decide

/-! ## A run without path arguments -/

/-- C6 (the code at the failing input): without `-reset` and without path
arguments `main` opens the existing index and returns; whatever paths the index
records, nothing is created, added or flushed. -/
theorem main_without_paths_only_opens (env : Env) (flags : Flags) :
    (main env { flags with resetFlag := false } []).trace = [Op.openIndex env.indexFile] ∧
    (main env { flags with resetFlag := false } []).crashed = false := by
  simp [main]

end Cindex

namespace Cindex

/-! ## The master index -/

/-- In a walk, the only operations that write `master` and were not there
before are the `Create` calls of rotations. -/
theorem walkFn_master_writes (env : Env) (dir master : GoString)
    (s : IndexState) (p : GoString) (i : Option FileInfo) (e : Bool)
    (h : 1 ≤ s.shards ∧
      ∀ op ∈ s.trace, Op.writes master op = true → isRotationCreate env dir op) :
    1 ≤ (walkFn env dir s p i e).1.shards ∧
      ∀ op ∈ (walkFn env dir s p i e).1.trace,
        Op.writes master op = true → isRotationCreate env dir op := by
  rcases walkFn_cases env dir s p i e with h1 | ⟨j, _, _, _, _, h1⟩
  · rw [h1]; exact h
  · rw [h1]
    rcases addRegular_trace env dir s p j.size with h2 | h2
    · rw [h2.1, h2.2.2.1]
      refine ⟨h.1, ?_⟩
      intro op hop hw
      rcases List.mem_append.mp hop with hm | hm
      · exact h.2 op hm hw
      · rw [List.mem_singleton.mp hm] at hw
        exact absurd hw (by simp [Op.writes])
    · rw [h2.1, h2.2.2.1]
      refine ⟨by omega, ?_⟩
      intro op hop hw
      rcases List.mem_append.mp hop with hm | hm
      · exact h.2 op hm hw
      · simp only [List.mem_cons, List.mem_singleton, List.not_mem_nil, or_false] at hm
        rcases hm with rfl | rfl | rfl
        · exact absurd hw (by simp [Op.writes])
        · exact ⟨s.shards, s.fromDirCalls, h.1, rfl⟩
        · exact absurd hw (by simp [Op.writes])

/-- In an indexing run without `-reset` whose master index exists: the run
begins with `Create(master~)`; an operation that writes the master path is the
final `Rename(master~~, master)` or the `Create` of a rotation; a run that is
not cut short ends with `Flush`, `Merge(master~~, master, master~)`,
`Remove(master~)` and that rename. -/
theorem nonreset_run_master_writes (env : Env) (flags : Flags) (args : List GoString)
    (hlist : flags.listFlag = false) (hargs : args ≠ [])
    (hreset : resetMode env flags = false) :
    (∃ rest, (main env flags args).trace =
      Op.create 0 (masterPath env flags ++ ['~']) :: rest) ∧
    (∀ op ∈ (main env flags args).trace, Op.writes (masterPath env flags) op = true →
      op = Op.rename (masterPath env flags ++ ['~'] ++ ['~']) (masterPath env flags) ∨
        isRotationCreate env flags.indexDir op) ∧
    ((main env flags args).crashed = false →
      ∃ pre h, (main env flags args).trace =
          pre ++ [Op.flush h,
            Op.merge (masterPath env flags ++ ['~'] ++ ['~']) (masterPath env flags)
              (masterPath env flags ++ ['~']),
            Op.remove (masterPath env flags ++ ['~']),
            Op.rename (masterPath env flags ++ ['~'] ++ ['~']) (masterPath env flags)] ∧
        ∀ op ∈ pre, Op.writes (masterPath env flags) op = true →
          isRotationCreate env flags.indexDir op) := by
  have hlen : (args.length == 0) = false := by
    cases args with
    | nil => exact absurd rfl hargs
    | cons a t => rfl
  have hfile : filePath env flags = masterPath env flags ++ ['~'] := by
    simp [filePath, hreset]
  have hbegin : ∃ rest, (main env flags args).trace =
      Op.create 0 (masterPath env flags ++ ['~']) :: rest := by
    obtain ⟨rest, hrest⟩ := main_trace_begins env flags args hlist hargs
    exact ⟨_, by rw [hrest, hfile]⟩
  have hinv := walkArgs_invariant env flags.indexDir
    (fun s => 1 ≤ s.shards ∧
      ∀ op ∈ s.trace, Op.writes (masterPath env flags) op = true →
        isRotationCreate env flags.indexDir op)
    (fun s p i e h => walkFn_master_writes env flags.indexDir _ s p i e h)
    (pathList env args) (initState env flags (pathList env args))
    (by
      refine ⟨by simp [initState], ?_⟩
      intro op hop hw
      simp only [initState, List.mem_cons, List.mem_singleton, List.not_mem_nil,
        or_false] at hop
      rcases hop with rfl | rfl
      · simp only [Op.writes, hfile] at hw
        simp at hw
      · exact absurd hw (by simp [Op.writes]))
  have hm1 : ((masterPath env flags ++ ['~'] ++ ['~'] == masterPath env flags) = false) := by
    simp
  have hm2 : ((masterPath env flags ++ ['~'] == masterPath env flags) = false) := by
    simp
  refine ⟨hbegin, ?_⟩
  unfold main
  simp only [hlen, Bool.and_false, hlist, Bool.false_eq_true, if_false, hreset,
    Bool.not_false, if_true, hfile]
  split
  · refine ⟨?_, fun hc => absurd hc (by simp)⟩
    intro op hop hw
    exact Or.inr (hinv.2 op hop hw)
  · refine ⟨?_, fun _ => ⟨(walkArgs env flags.indexDir (pathList env args)
        (initState env flags (pathList env args))).1.trace,
      (walkArgs env flags.indexDir (pathList env args)
        (initState env flags (pathList env args))).1.ix, by simp, hinv.2⟩⟩
    intro op hop hw
    simp only [List.mem_append, List.mem_cons, List.mem_singleton, List.not_mem_nil,
      or_false] at hop
    rcases hop with (hop | rfl) | rfl | rfl | rfl
    · exact Or.inr (hinv.2 op hop hw)
    · exact absurd hw (by simp [Op.writes])
    · simp only [Op.writes] at hw
      rw [hm1] at hw
      exact absurd hw (by decide)
    · simp only [Op.writes] at hw
      rw [hm2] at hw
      exact absurd hw (by decide)
    · exact Or.inl rfl

end Cindex

namespace Cindex

/-- C7 (amended): in an indexing run without `-reset` whose master index
exists, the first shard is created at `master~`, not at the master path; an
operation of the run that writes the master path is either the final
`Rename(master~~, master)` or the `index.Create` of a rotation, which opens
whatever path `IndexFromDir` returns; so in a run without rotation no
`index.Create` opens the master path and the rename is the only operation
that writes it; a run that is not cut short ends with `Flush`,
`Merge(master~~, master, master~)`, `Remove(master~)` and that rename, so the
file renamed onto the master is the one `Merge` has just written. In a reset
run (the flag given, or no master on disk) the first call is `index.Create` on
the master path itself. -/
theorem master_written_by_rename_or_rotation (env : Env) (flags : Flags)
    (args : List GoString)
    (hlist : flags.listFlag = false) (hargs : args ≠ []) :
    (resetMode env flags = false →
      (∃ rest, (main env flags args).trace =
        Op.create 0 (masterPath env flags ++ ['~']) :: rest) ∧
      (∀ op ∈ (main env flags args).trace, Op.writes (masterPath env flags) op = true →
        op = Op.rename (masterPath env flags ++ ['~'] ++ ['~']) (masterPath env flags) ∨
          isRotationCreate env flags.indexDir op) ∧
      ((∀ h p, Op.create h p ∈ (main env flags args).trace → h = 0) →
        (∀ h p, Op.create h p ∈ (main env flags args).trace → p ≠ masterPath env flags) ∧
        ∀ op ∈ (main env flags args).trace, Op.writes (masterPath env flags) op = true →
          op = Op.rename (masterPath env flags ++ ['~'] ++ ['~']) (masterPath env flags)) ∧
      ((main env flags args).crashed = false →
        ∃ pre h, (main env flags args).trace =
            pre ++ [Op.flush h,
              Op.merge (masterPath env flags ++ ['~'] ++ ['~']) (masterPath env flags)
                (masterPath env flags ++ ['~']),
              Op.remove (masterPath env flags ++ ['~']),
              Op.rename (masterPath env flags ++ ['~'] ++ ['~']) (masterPath env flags)] ∧
          ∀ op ∈ pre, Op.writes (masterPath env flags) op = true →
            isRotationCreate env flags.indexDir op)) ∧
    (resetMode env flags = true →
      ∃ rest, (main env flags args).trace = Op.create 0 (masterPath env flags) :: rest) := by
  constructor
  · intro hreset
    have hmain := nonreset_run_master_writes env flags args hlist hargs hreset
    have honly : (∀ h p, Op.create h p ∈ (main env flags args).trace → h = 0) →
        ∀ op ∈ (main env flags args).trace, Op.writes (masterPath env flags) op = true →
          op = Op.rename (masterPath env flags ++ ['~'] ++ ['~']) (masterPath env flags) := by
      intro hnorot op hop hw
      rcases hmain.2.1 op hop hw with h | ⟨h, k, hpos, rfl⟩
      · exact h
      · have := hnorot h _ hop
        omega
    refine ⟨hmain.1, hmain.2.1, ?_, hmain.2.2⟩
    intro hnorot
    refine ⟨?_, honly hnorot⟩
    intro h p hmem heq
    have := honly hnorot (Op.create h p) hmem (by simp [Op.writes, heq])
    exact absurd this (by simp)
  · intro hreset
    obtain ⟨rest, hrest⟩ := main_trace_begins env flags args hlist hargs
    have hfile : filePath env flags = masterPath env flags := by
      simp [filePath, hreset]
    exact ⟨_, by rw [hrest, hfile]⟩

set_option maxRecDepth 100000 in
/-- C7 (witness): `cindex -indexdir /idx /src/b.go` with the master
`/idx/index` present, `IndexFromDir` naming the same file at every call; the
run does not rotate. -/
theorem master_written_by_rename_or_rotation_witness :
    (main fixedNameEnv sampleFlags ["/src/b.go".toList]).trace =
      [Op.create 0 "/idx/index~".toList, Op.addPaths 0 ["/src/b.go".toList],
        Op.addFile 0 "/src/b.go".toList, Op.flush 0,
        Op.merge "/idx/index~~".toList "/idx/index".toList "/idx/index~".toList,
        Op.remove "/idx/index~".toList,
        Op.rename "/idx/index~~".toList "/idx/index".toList] ∧
    (∀ h p, Op.create h p ∈ (main fixedNameEnv sampleFlags ["/src/b.go".toList]).trace →
      p ≠ masterPath fixedNameEnv sampleFlags) ∧
    (∀ op ∈ (main fixedNameEnv sampleFlags ["/src/b.go".toList]).trace,
      Op.writes (masterPath fixedNameEnv sampleFlags) op = true →
      op = Op.rename (masterPath fixedNameEnv sampleFlags ++ ['~'] ++ ['~'])
        (masterPath fixedNameEnv sampleFlags)) :=
  have hnorot : ∀ h p,
      Op.create h p ∈ (main fixedNameEnv sampleFlags ["/src/b.go".toList]).trace → h = 0 := by
    intro h p hmem
    have ht : (main fixedNameEnv sampleFlags ["/src/b.go".toList]).trace =
        [Op.create 0 "/idx/index~".toList, Op.addPaths 0 ["/src/b.go".toList],
          Op.addFile 0 "/src/b.go".toList, Op.flush 0,
          Op.merge "/idx/index~~".toList "/idx/index".toList "/idx/index~".toList,
          Op.remove "/idx/index~".toList,
          Op.rename "/idx/index~~".toList "/idx/index".toList] := by decide
    rw [ht] at hmem
    simp at hmem
    exact hmem.1
  ⟨by decide,
    (((master_written_by_rename_or_rotation fixedNameEnv sampleFlags ["/src/b.go".toList]
      rfl (by decide)).1 (by decide)).2.2.1 hnorot).1,
    (((master_written_by_rename_or_rotation fixedNameEnv sampleFlags ["/src/b.go".toList]
      rfl (by decide)).1 (by decide)).2.2.1 hnorot).2⟩

set_option maxRecDepth 100000 in
/-- C7 (counterexample): `cindex -reset -indexdir /idx /src/b.go` with the
master `/idx/s` present on disk. `index.Create` opens the master path itself,
the file is added to it in place, and the run has no rename. -/
theorem reset_run_creates_master_in_place :
    sampleEnvWithMaster.statOk (masterPath sampleEnvWithMaster sampleResetFlags) = true ∧
    masterPath sampleEnvWithMaster sampleResetFlags = "/idx/s".toList ∧
    (main sampleEnvWithMaster sampleResetFlags ["/src/b.go".toList]).trace =
      [Op.create 0 "/idx/s".toList, Op.addPaths 0 ["/src/b.go".toList],
        Op.addFile 0 "/src/b.go".toList, Op.flush 0] := by
  decide

/-! ## The life cycle of a shard -/

theorem lifeRun_append (l : Life) (a b : List Op) :
    lifeRun l (a ++ b) = (lifeRun l a).bind (fun l1 => lifeRun l1 b) := by
  induction a generalizing l with
  | nil => rfl
  | cons op rest ih =>
    simp only [List.cons_append, lifeRun]
    cases lifeStep l op with
    | none => rfl
    | some l1 => exact ih l1

theorem walkFn_keeps_lifecycle (env : Env) (dir : GoString)
    (s : IndexState) (p : GoString) (i : Option FileInfo) (e : Bool)
    (h : lifeRun { openShard := none, created := 0 } s.trace =
      some { openShard := some s.ix, created := s.shards }) :
    lifeRun { openShard := none, created := 0 } (walkFn env dir s p i e).1.trace =
      some { openShard := some (walkFn env dir s p i e).1.ix,
             created := (walkFn env dir s p i e).1.shards } := by
  rcases walkFn_cases env dir s p i e with h1 | ⟨j, _, _, _, _, h1⟩
  · rw [h1]; exact h
  · rw [h1]
    rcases addRegular_trace env dir s p j.size with h2 | h2
    · rw [h2.1, h2.2.1, h2.2.2.1, lifeRun_append, h]
      simp [lifeRun, lifeStep]
    · rw [h2.1, h2.2.1, h2.2.2.1, lifeRun_append, h]
      simp [lifeRun, lifeStep]

/-- Every run of cindex that is not cut short by a panic issues its
index-engine calls in life-cycle order: each created shard is flushed exactly
once, before the next `Create` and before `Merge`, and gets no `AddFile`
after its flush. -/
theorem lifecycle_ok_of_completed (env : Env) (flags : Flags) (args : List GoString)
    (hc : (main env flags args).crashed = false) :
    lifecycleOk (main env flags args).trace = true := by
  have hinv := walkArgs_invariant env flags.indexDir
    (fun s => lifeRun { openShard := none, created := 0 } s.trace =
      some { openShard := some s.ix, created := s.shards })
    (fun s p i e h => walkFn_keeps_lifecycle env flags.indexDir s p i e h)
    (pathList env args) (initState env flags (pathList env args))
    (by simp [initState, lifeRun, lifeStep])
  have hprint : ∀ (l : Life) (ps : List GoString),
      lifeRun l (ps.map Op.printPath) = some l := by
    intro l ps
    induction ps with
    | nil => rfl
    | cons q rest ih => simpa [lifeRun, lifeStep] using ih
  unfold main at hc ⊢
  split
  · simp [lifecycleOk, lifeRun, lifeStep]
  · split
    · simp [lifecycleOk, lifeRun, lifeStep]
    · simp only
      split
      · simp [lifecycleOk, lifeRun, lifeStep, hprint]
      · split
        · rename_i h1 h2 h3 h4
          simp [h1, h2, h3, h4] at hc
        · split
          · simp only [lifecycleOk]
            rw [List.append_assoc, lifeRun_append, hinv]
            simp [lifeRun, lifeStep]
          · simp only [lifecycleOk]
            rw [lifeRun_append, hinv]
            simp [lifeRun, lifeStep]

theorem walkFn_some_no_crash (env : Env) (dir : GoString) (st : IndexState)
    (path : GoString) (i : FileInfo) (err : Bool) :
    (walkFn env dir st path (some i) err).2 ≠ Ret.crash := by
  unfold walkFn
  split
  · simp only
    split <;> simp
  · split
    · simp
    · simp only
      split <;> simp

mutual
/-- On a tree whose every path can be examined the callback never panics. -/
theorem walkNode_present_no_crash (env : Env) (dir : GoString) :
    ∀ (node : FsNode) (path : GoString) (st : IndexState), node.present = true →
      (walkNode (walkFn env dir) path node st).2 ≠ Ret.crash
  | FsNode.missing, _, _, h => by simp [FsNode.present] at h
  | FsNode.entry info readErr entries, path, st, h => by
    simp only [FsNode.present] at h
    simp only [walkNode]
    split
    · exact walkFn_some_no_crash env dir st path info false
    · split
      · exact walkFn_some_no_crash env dir st path info readErr
      · exact walkEntries_present_no_crash env dir entries path _ h
/-- The same for the loop over a directory's children. -/
theorem walkEntries_present_no_crash (env : Env) (dir : GoString) :
    ∀ (entries : FsEntries) (path : GoString) (st : IndexState), entries.present = true →
      (walkEntries (walkFn env dir) path entries st).2 ≠ Ret.crash
  | FsEntries.nil, _, _, _ => by simp [walkEntries]
  | FsEntries.cons name node rest, path, st, h => by
    simp only [FsEntries.present, Bool.and_eq_true] at h
    simp only [walkEntries]
    split
    · exact walkNode_present_no_crash env dir node _ st h.1
    · exact walkEntries_present_no_crash env dir rest path _ h.2
end

theorem walkArgs_present_no_crash (env : Env) (dir : GoString) :
    ∀ (args : List GoString) (st : IndexState),
      (∀ a ∈ args, (env.fs a).present = true) →
      (walkArgs env dir args st).2 ≠ Ret.crash
  | [], _, _ => by simp [walkArgs]
  | arg :: rest, st, h => by
    have h1 := walkNode_present_no_crash env dir (env.fs arg) arg st
      (h arg (List.mem_cons_self _ _))
    have h2 : (Walk (walkFn env dir) arg (env.fs arg) st).2 ≠ Ret.crash := by
      unfold Walk
      simp only
      split
      · simp
      · exact h1
    simp only [walkArgs, h2, if_false]
    exact walkArgs_present_no_crash env dir rest _
      (fun a ha => h a (List.mem_cons_of_mem _ ha))

/-- Every run of cindex over trees whose every path can be examined runs to its
end and issues its index-engine calls in life-cycle order. -/
theorem lifecycle_ok_of_present (env : Env) (flags : Flags) (args : List GoString)
    (hpresent : ∀ a ∈ pathList env args, (env.fs a).present = true) :
    (main env flags args).crashed = false ∧
      lifecycleOk (main env flags args).trace = true := by
  have hc : (main env flags args).crashed = false := by
    have hno := walkArgs_present_no_crash env flags.indexDir (pathList env args)
      (initState env flags (pathList env args)) hpresent
    unfold main
    split
    · rfl
    · split
      · rfl
      · simp only
        split
        · rfl
        · split <;> rfl
  exact ⟨hc, lifecycle_ok_of_completed env flags args hc⟩

set_option maxRecDepth 100000 in
/-- C8 (the code at the failing input): `cindex -indexdir /idx /tmp/.gone`,
where `/tmp/.gone` does not exist. `Walk` reports the root with a nil
`FileInfo`; its name is hidden, so the callback calls `info.IsDir()` on nil and
the process dies: shard 0 was created and is never flushed. -/
theorem hidden_missing_root_leaves_shard_unflushed :
    (main sampleEnv sampleFlags ["/tmp/.gone".toList]).crashed = true ∧
    (main sampleEnv sampleFlags ["/tmp/.gone".toList]).trace =
      [Op.create 0 "/idx/s".toList, Op.addPaths 0 ["/tmp/.gone".toList]] ∧
    lifecycleOk (main sampleEnv sampleFlags ["/tmp/.gone".toList]).trace = false := by
  decide

end Cindex

namespace Csearch

/-! ## The loops of one shard search -/

theorem filterNames_eq (env : Env) (path : GoString) :
    ∀ (post fnames : List Nat), filterNames env path post fnames =
      fnames ++ post.filter (fun fileid =>
        decide (0 ≤ env.matchString (env.name path fileid) true true))
  | [], fnames => by simp [filterNames]
  | fileid :: rest, fnames => by
    by_cases h : env.matchString (env.name path fileid) true true < 0
    · have h2 : ¬ 0 ≤ env.matchString (env.name path fileid) true true := not_le.mpr h
      simp [filterNames, h, h2, filterNames_eq env path rest fnames]
    · have h2 : 0 ≤ env.matchString (env.name path fileid) true true := not_lt.mp h
      simp [filterNames, h, h2, filterNames_eq env path rest (fnames ++ [fileid])]

theorem reportAll_spec (env : Env) (path : GoString) :
    ∀ (ids : List Nat) (s : Shared),
      (reportAll env path ids s).trace =
        s.trace ++ ids.map (fun fileid => Event.file path fileid (env.name path fileid)) ∧
      (reportAll env path ids s).gMatch =
        (s.gMatch || ids.any (fun fileid => env.fileMatch (env.name path fileid))) ∧
      (reportAll env path ids s).post = s.post ∧
      (reportAll env path ids s).matchesVar = s.matchesVar
  | [], s => by simp [reportAll]
  | fileid :: rest, s => by
    have ih := reportAll_spec env path rest (reportFile env path s fileid)
    simp only [reportAll]
    rw [ih.1, ih.2.1, ih.2.2.1, ih.2.2.2]
    simp [reportFile, grepFile, Bool.or_assoc]

theorem searchShard_spec (env : Env) (flags : Flags) (path : GoString) (s : Shared) :
    (searchShard env flags path s).trace =
      s.trace ++ (Event.openIndex path :: Event.postingQuery path flags.bruteFlag ::
        (survivors env flags path).map
          (fun fileid => Event.file path fileid (env.name path fileid))) ∧
    (searchShard env flags path s).gMatch =
      (s.gMatch ||
        (survivors env flags path).any (fun fileid => env.fileMatch (env.name path fileid))) ∧
    (searchShard env flags path s).matchesVar = (searchShard env flags path s).gMatch ∧
    (searchShard env flags path s).post = survivors env flags path := by
  unfold searchShard survivors
  by_cases hf : flags.fFlag = []
  · simp [hf, reportAll_spec]
  · simp [hf, reportAll_spec, filterNames_eq]

end Csearch

namespace Csearch

/-! ## Properties of the shared variables kept by every step -/

theorem runTask_invariant (env : Env) (flags : Flags) (Inv : Shared → Prop)
    (hstep : ∀ t s, Inv s → Inv (stepTask env flags t s).2) :
    ∀ (n : Nat) (t : Task) (s : Shared), Inv s → Inv (runTask env flags n t s).2
  | 0, t, s, h => by simpa [runTask] using h
  | n + 1, t, s, h => by
    simp only [runTask]
    exact runTask_invariant env flags Inv hstep n _ _ (hstep t s h)

theorem drain_invariant (env : Env) (flags : Flags) (Inv : Shared → Prop)
    (hstep : ∀ t s, Inv s → Inv (stepTask env flags t s).2) :
    ∀ (ts : List Task) (s : Shared), Inv s → Inv (drain env flags ts s).2
  | [], s, h => by simpa [drain] using h
  | t :: ts, s, h => by
    simp only [drain]
    exact drain_invariant env flags Inv hstep ts _
      (runTask_invariant env flags Inv hstep _ t s h)

/-- Every goroutine step keeps `g.Match` equal to "some reported file had a
matching line". -/
theorem stepTask_gMatch (env : Env) (flags : Flags) (t : Task) (s : Shared)
    (h : s.gMatch = s.trace.any (Event.isMatch env)) :
    (stepTask env flags t s).2.gMatch =
      (stepTask env flags t s).2.trace.any (Event.isMatch env) := by
  unfold stepTask
  split
  · split
    · exact h
    · split
      · simp [h, Event.isMatch]
      · exact h
  · split <;> exact h
  · exact h
  · exact h
  · exact h
  · simp [reportFile, grepFile, h, Event.isMatch]
  · exact h
  · exact h

/-- Every callback invocation of the walk keeps `g.Match` equal to "some
reported file had a matching line", and keeps `matches` equal to `g.Match`. -/
theorem searchFn_gMatch (env : Env) (flags : Flags) (s : Shared) (path : GoString)
    (info : Option FileInfo) (err : Bool)
    (h : s.gMatch = s.trace.any (Event.isMatch env)) :
    (searchFn env flags s path info err).1.gMatch =
      (searchFn env flags s path info err).1.trace.any (Event.isMatch env) := by
  unfold searchFn
  cases info with
  | none => exact h
  | some i =>
    simp only
    split
    · exact h
    · split
      · exact h
      · split
        · have hs := searchShard_spec env flags path s
          have hm : ∀ l : List Nat,
              (l.map (fun fileid => Event.file path fileid (env.name path fileid))).any
                (Event.isMatch env) =
              l.any (fun fileid => env.fileMatch (env.name path fileid)) := by
            intro l
            induction l with
            | nil => rfl
            | cons a rest ih => simp [Event.isMatch, ih]
          rw [hs.1, hs.2.1, h]
          simp [List.any_append, Event.isMatch, hm]
        · exact h

theorem searchFn_matches (env : Env) (flags : Flags) (s : Shared) (path : GoString)
    (info : Option FileInfo) (err : Bool) (h : s.matchesVar = s.gMatch) :
    (searchFn env flags s path info err).1.matchesVar =
      (searchFn env flags s path info err).1.gMatch := by
  unfold searchFn
  cases info with
  | none => exact h
  | some i =>
    simp only
    split
    · exact h
    · split
      · exact h
      · split
        · exact (searchShard_spec env flags path s).2.2.1
        · exact h

end Csearch

namespace Csearch

/-! ## Goroutines of entries that are not shards -/

theorem stepTask_idle (env : Env) (flags : Flags) (t : Task) (s : Shared)
    (h : isShard t.info = false ∧ (t.pc = Pc.start ∨ t.pc = Pc.done)) :
    (stepTask env flags t s).2 = s ∧
      isShard (stepTask env flags t s).1.info = false ∧
      ((stepTask env flags t s).1.pc = Pc.start ∨ (stepTask env flags t s).1.pc = Pc.done) := by
  obtain ⟨hs, hpc⟩ := h
  rcases hpc with hpc | hpc
  · unfold stepTask
    rw [hpc]
    simp only
    by_cases hd : t.info.isDir = true
    · simp [hd, hs]
    · by_cases hz : t.info.size > 0
      · simp [isShard, hd, hz] at hs
      · simp [hd, hz, hs]
  · unfold stepTask
    rw [hpc]
    simp [hs, hpc]

theorem runTask_idle (env : Env) (flags : Flags) :
    ∀ (n : Nat) (t : Task) (s : Shared),
      (isShard t.info = false ∧ (t.pc = Pc.start ∨ t.pc = Pc.done)) →
      (runTask env flags n t s).2 = s
  | 0, _, _, _ => rfl
  | n + 1, t, s, h => by
    have h1 := stepTask_idle env flags t s h
    simp only [runTask]
    rw [h1.1]
    exact runTask_idle env flags n _ s h1.2

theorem drain_idle (env : Env) (flags : Flags) :
    ∀ (ts : List Task) (s : Shared),
      (∀ t ∈ ts, isShard t.info = false ∧ (t.pc = Pc.start ∨ t.pc = Pc.done)) →
      (drain env flags ts s).2 = s
  | [], _, _ => rfl
  | t :: ts, s, h => by
    simp only [drain]
    rw [runTask_idle env flags _ t s (h t (List.mem_cons_self _ _))]
    exact drain_idle env flags ts s (fun u hu => h u (List.mem_cons_of_mem _ hu))

end Csearch

namespace Csearch

/-! ## The same properties under unsynchronised reads -/

/-- A run in which every read returns the value written last is one of the
runs of the concurrent block. -/
theorem stepRacy_plain (env : Env) (flags : Flags) (i : Nat) (t : Task) (s : Shared) :
    stepRacy env flags (Pick.plain i) t s = stepTask env flags t s := rfl

theorem stepAtRacy_plain (env : Env) (flags : Flags) (j : Nat) :
    ∀ (i : Nat) (ts : List Task) (s : Shared),
      stepAtRacy env flags (Pick.plain j) i ts s = stepAt env flags i ts s
  | _, [], _ => by simp [stepAtRacy, stepAt]
  | 0, t :: ts, s => by simp [stepAtRacy, stepAt, stepRacy_plain]
  | i + 1, t :: ts, s => by simp [stepAtRacy, stepAt, stepAtRacy_plain env flags j i ts s]

theorem runPicks_plain (env : Env) (flags : Flags) :
    ∀ (sched : List Nat) (ts : List Task) (s : Shared),
      runPicks env flags (sched.map Pick.plain) ts s = (runSchedule env flags sched ts s, false)
  | [], _, _ => rfl
  | i :: rest, ts, s => by
    have hp : (Pick.plain i).panics = false := rfl
    have ht : (Pick.plain i).task = i := rfl
    simp only [List.map_cons, runPicks, runSchedule, hp, ht, Bool.false_and,
      Bool.false_eq_true, if_false, stepAtRacy_plain]
    exact runPicks_plain env flags rest _ _

/-- Every interleaving of the steps of `stepTask` is a run of the concurrent
block: one without a panic and with every read returning the value written
last. -/
theorem concurBlock_plain (env : Env) (flags : Flags) (sched : List Nat)
    (fileLst : List (GoString × FileInfo)) (s : Shared) :
    concurBlock env flags (sched.map Pick.plain) fileLst s =
      (fanOut env flags sched fileLst s, false) := by
  unfold concurBlock fanOut
  simp [runPicks_plain]

theorem concurBlock_no_panic (env : Env) (flags : Flags) (picks : List Pick)
    (fileLst : List (GoString × FileInfo)) (s : Shared)
    (h : (concurBlock env flags picks fileLst s).2 = false) :
    (concurBlock env flags picks fileLst s).1 =
      drain env flags (runPicks env flags picks (fileLst.map mkTask) s).1.1
        (runPicks env flags picks (fileLst.map mkTask) s).1.2 := by
  by_cases hp : (runPicks env flags picks (fileLst.map mkTask) s).2 = true
  · simp [concurBlock, hp] at h
  · simp [concurBlock, hp]

theorem stepAtRacy_invariant (env : Env) (flags : Flags) (Inv : Shared → Prop)
    (hstep : ∀ t s, Inv s → Inv (stepTask env flags t s).2) (p : Pick) :
    ∀ (i : Nat) (ts : List Task) (s : Shared), Inv s → Inv (stepAtRacy env flags p i ts s).2
  | _, [], s, h => by simpa [stepAtRacy] using h
  | 0, t :: ts, s, h => by simpa [stepAtRacy, stepRacy] using hstep t s h
  | i + 1, t :: ts, s, h => by
    simpa [stepAtRacy] using stepAtRacy_invariant env flags Inv hstep p i ts s h

theorem runPicks_invariant (env : Env) (flags : Flags) (Inv : Shared → Prop)
    (hstep : ∀ t s, Inv s → Inv (stepTask env flags t s).2) :
    ∀ (picks : List Pick) (ts : List Task) (s : Shared), Inv s →
      Inv (runPicks env flags picks ts s).1.2
  | [], ts, s, h => by simpa [runPicks] using h
  | p :: rest, ts, s, h => by
    simp only [runPicks]
    split
    · exact h
    · exact runPicks_invariant env flags Inv hstep rest _ _
        (stepAtRacy_invariant env flags Inv hstep p p.task ts s h)

/-- A property of the shared variables that every goroutine step keeps holds
after the concurrent block, whatever the goroutines read and whether or not
one of them panics. -/
theorem concurBlock_invariant (env : Env) (flags : Flags) (Inv : Shared → Prop)
    (hstep : ∀ t s, Inv s → Inv (stepTask env flags t s).2)
    (picks : List Pick) (fileLst : List (GoString × FileInfo)) (s : Shared) (h : Inv s) :
    Inv (concurBlock env flags picks fileLst s).1.2 := by
  unfold concurBlock
  split
  · exact runPicks_invariant env flags Inv hstep picks _ s h
  · exact drain_invariant env flags Inv hstep _ _
      (runPicks_invariant env flags Inv hstep picks _ s h)

theorem stepRacy_idle (env : Env) (flags : Flags) (p : Pick) (t : Task) (s : Shared)
    (h : isShard t.info = false ∧ (t.pc = Pc.start ∨ t.pc = Pc.done)) :
    (stepRacy env flags p t s).2 = s ∧
      isShard (stepRacy env flags p t s).1.info = false ∧
      ((stepRacy env flags p t s).1.pc = Pc.start ∨ (stepRacy env flags p t s).1.pc = Pc.done) :=
  ⟨(stepTask_idle env flags t s h).1, (stepTask_idle env flags t _ h).2⟩

theorem stepAtRacy_idle (env : Env) (flags : Flags) (p : Pick) :
    ∀ (i : Nat) (ts : List Task) (s : Shared),
      (∀ t ∈ ts, isShard t.info = false ∧ (t.pc = Pc.start ∨ t.pc = Pc.done)) →
      (stepAtRacy env flags p i ts s).2 = s ∧
        ∀ t ∈ (stepAtRacy env flags p i ts s).1,
          isShard t.info = false ∧ (t.pc = Pc.start ∨ t.pc = Pc.done)
  | _, [], s, _ => by simp [stepAtRacy]
  | 0, t :: ts, s, h => by
    have h1 := stepRacy_idle env flags p t s (h t (List.mem_cons_self _ _))
    simp only [stepAtRacy]
    refine ⟨h1.1, ?_⟩
    intro u hu
    rcases List.mem_cons.mp hu with rfl | hu
    · exact h1.2
    · exact h u (List.mem_cons_of_mem _ hu)
  | i + 1, t :: ts, s, h => by
    have ih := stepAtRacy_idle env flags p i ts s (fun u hu => h u (List.mem_cons_of_mem _ hu))
    simp only [stepAtRacy]
    refine ⟨ih.1, ?_⟩
    intro u hu
    rcases List.mem_cons.mp hu with rfl | hu
    · exact h u (List.mem_cons_self _ _)
    · exact ih.2 u hu

theorem runPicks_idle (env : Env) (flags : Flags) :
    ∀ (picks : List Pick) (ts : List Task) (s : Shared),
      (∀ t ∈ ts, isShard t.info = false ∧ (t.pc = Pc.start ∨ t.pc = Pc.done)) →
      (runPicks env flags picks ts s).1.2 = s ∧
        ∀ t ∈ (runPicks env flags picks ts s).1.1,
          isShard t.info = false ∧ (t.pc = Pc.start ∨ t.pc = Pc.done)
  | [], ts, s, h => by simpa [runPicks] using h
  | p :: rest, ts, s, h => by
    have h1 := stepAtRacy_idle env flags p p.task ts s h
    simp only [runPicks]
    split
    · exact ⟨rfl, h⟩
    · rw [h1.1]
      exact runPicks_idle env flags rest _ s h1.2

/-- When no entry of the listing is a shard the concurrent block leaves the
shared variables as they are. -/
theorem concurBlock_idle (env : Env) (flags : Flags) (picks : List Pick)
    (fileLst : List (GoString × FileInfo)) (s : Shared)
    (h : ∀ e ∈ fileLst, isShard e.2 = false) :
    (concurBlock env flags picks fileLst s).1.2 = s := by
  have h0 : ∀ t ∈ fileLst.map mkTask,
      isShard t.info = false ∧ (t.pc = Pc.start ∨ t.pc = Pc.done) := by
    intro t ht
    obtain ⟨e, he, rfl⟩ := List.mem_map.mp ht
    exact ⟨h e he, Or.inl rfl⟩
  have h1 := runPicks_idle env flags picks _ s h0
  unfold concurBlock
  split
  · exact h1.1
  · simp only
    rw [h1.1]
    exact drain_idle env flags _ s h1.2

end Csearch

namespace Csearch

/-! ## The walk over the index directory -/

theorem searchFn_some_ok (env : Env) (flags : Flags) (s : Shared) (path : GoString)
    (i : FileInfo) (err : Bool) : (searchFn env flags s path (some i) err).2 = Ret.ok := by
  unfold searchFn
  simp only
  split
  · rfl
  · split
    · rfl
    · split <;> rfl

mutual
/-- On a tree whose every path can be examined the walk callback never panics
and the walk runs to its end. -/
theorem walkNode_present_ok (env : Env) (flags : Flags) :
    ∀ (node : FsNode) (path : GoString) (s : Shared), node.present = true →
      (walkNode (searchFn env flags) path node s).2 = Ret.ok
  | FsNode.missing, _, _, h => by simp [FsNode.present] at h
  | FsNode.entry info readErr entries, path, s, h => by
    simp only [FsNode.present] at h
    simp only [walkNode]
    split
    · exact searchFn_some_ok env flags s path info false
    · split
      · exact searchFn_some_ok env flags s path info readErr
      · exact walkEntries_present_ok env flags entries path _ h
/-- The same for the loop over a directory's children. -/
theorem walkEntries_present_ok (env : Env) (flags : Flags) :
    ∀ (entries : FsEntries) (path : GoString) (s : Shared), entries.present = true →
      (walkEntries (searchFn env flags) path entries s).2 = Ret.ok
  | FsEntries.nil, _, _, _ => by simp [walkEntries]
  | FsEntries.cons name node rest, path, s, h => by
    simp only [FsEntries.present, Bool.and_eq_true] at h
    have h1 := walkNode_present_ok env flags node (joinPath path name) s h.1
    simp only [walkEntries, h1]
    simpa using walkEntries_present_ok env flags rest path _ h.2
end

/-- The walk leaves `matches` equal to `g.Match` when they were equal before,
and also when some child of the directory is a shard. -/
theorem walkEntries_matches (env : Env) (flags : Flags) (path : GoString) :
    ∀ (entries : FsEntries) (s : Shared), entries.present = true →
      (s.matchesVar = s.gMatch ∨
        ∃ lst, listEntries entries = some lst ∧ ∃ e ∈ lst, isShard e.2 = true) →
      (walkEntries (searchFn env flags) path entries s).1.matchesVar =
        (walkEntries (searchFn env flags) path entries s).1.gMatch
  | FsEntries.nil, s, _, h => by
    rcases h with h | ⟨lst, hl, e, he, _⟩
    · simpa [walkEntries] using h
    · simp [listEntries] at hl
      subst hl
      simp at he
  | FsEntries.cons name FsNode.missing rest, s, hp, _ => by
    simp [FsEntries.present, FsNode.present] at hp
  | FsEntries.cons name (FsNode.entry info readErr sub) rest, s, hp, h => by
    simp only [FsEntries.present, Bool.and_eq_true] at hp
    have hok := walkNode_present_ok env flags (FsNode.entry info readErr sub)
      (joinPath path name) s hp.1
    have hkeep : s.matchesVar = s.gMatch →
        (walkNode (searchFn env flags) (joinPath path name)
          (FsNode.entry info readErr sub) s).1.matchesVar =
        (walkNode (searchFn env flags) (joinPath path name)
          (FsNode.entry info readErr sub) s).1.gMatch :=
      fun hk => walkNode_invariant (searchFn env flags) (fun s => s.matchesVar = s.gMatch)
        (fun s p i e hs => searchFn_matches env flags s p i e hs) _ _ s hk
    simp only [walkEntries, hok]
    simp only [bne_self_eq_false, Bool.false_and, Bool.false_eq_true, if_false]
    rcases h with h | ⟨lst, hl, e, he, hshard⟩
    · exact walkEntries_matches env flags path rest _ hp.2 (Or.inl (hkeep h))
    · simp only [listEntries] at hl
      cases hr : listEntries rest with
      | none => simp [hr] at hl
      | some lst1 =>
        simp only [hr, Option.map_some', Option.some.injEq] at hl
        subst hl
        rcases List.mem_cons.mp he with rfl | he
        · refine walkEntries_matches env flags path rest _ hp.2 (Or.inl ?_)
          simp only [isShard, Bool.and_eq_true, Bool.not_eq_true', decide_eq_true_eq] at hshard
          simp only [walkNode, hshard.1, Bool.not_false, if_true]
          simp only [searchFn, hshard.1, Bool.false_eq_true, if_false, hshard.2, if_true]
          exact (searchShard_spec env flags _ s).2.2.1
        · exact walkEntries_matches env flags path rest _ hp.2 (Or.inr ⟨lst1, hr, e, he, hshard⟩)

end Csearch

namespace Csearch

theorem Walk_fst {σ : Type} (fn : σ → GoString → Option FileInfo → Bool → σ × Ret)
    (root : GoString) (node : FsNode) (st : σ) :
    (Walk fn root node st).1 = (walkNode fn root node st).1 := by
  unfold Walk
  simp only
  split <;> rfl

theorem Walk_present_ok (env : Env) (flags : Flags) (root : GoString) (node : FsNode)
    (s : Shared) (h : node.present = true) :
    (Walk (searchFn env flags) root node s).2 = Ret.ok := by
  have h1 := walkNode_present_ok env flags node root s h
  unfold Walk
  simp [h1]

theorem Walk_matches (env : Env) (flags : Flags) (root : GoString) (node : FsNode)
    (s : Shared) (hp : node.present = true)
    (h : s.matchesVar = s.gMatch ∨
      ∃ lst, walkListing node = some lst ∧ ∃ e ∈ lst, isShard e.2 = true) :
    (Walk (searchFn env flags) root node s).1.matchesVar =
      (Walk (searchFn env flags) root node s).1.gMatch := by
  rcases h with h | ⟨lst, hl, hex⟩
  · exact Walk_invariant (searchFn env flags) (fun s => s.matchesVar = s.gMatch)
      (fun s p i e hs => searchFn_matches env flags s p i e hs) root node s h
  · rw [Walk_fst]
    cases node with
    | missing => simp [walkListing] at hl
    | entry info readErr entries =>
      simp only [FsNode.present] at hp
      simp only [walkListing] at hl
      by_cases hd : (info.isDir && !readErr) = true
      · rw [if_pos hd] at hl
        simp only [Bool.and_eq_true, Bool.not_eq_true'] at hd
        have hfn : searchFn env flags s root (some info) false = (s, Ret.ok) := by
          simp [searchFn, hd.1]
        simp only [walkNode, hd.1, hd.2, hfn]
        simpa using walkEntries_matches env flags root entries s hp (Or.inr ⟨lst, hl, hex⟩)
      · rw [if_neg hd] at hl
        exact absurd hl (by simp)

/-- After the walk of an index directory whose every path can be examined
`Main` returns with `matches` equal to "some reported file had a matching
line". -/
theorem walkIndexDir_returns (env : Env) (flags : Flags) (s1 : Shared)
    (hpresent : env.tree.present = true)
    (hG : s1.gMatch = s1.trace.any (Event.isMatch env))
    (hK : s1.matchesVar = s1.gMatch ∨
      ∃ lst, walkListing env.tree = some lst ∧ ∃ e ∈ lst, isShard e.2 = true) :
    ∃ s, walkIndexDir env flags s1 = MainResult.returned s ∧
      s.matchesVar = s.trace.any (Event.isMatch env) := by
  refine ⟨(Walk (searchFn env flags) flags.indexDir env.tree s1).1, ?_, ?_⟩
  · unfold walkIndexDir
    rw [Walk_present_ok env flags _ _ s1 hpresent]
    simp
  · rw [Walk_matches env flags _ _ s1 hpresent hK]
    exact Walk_invariant (searchFn env flags)
      (fun s => s.gMatch = s.trace.any (Event.isMatch env))
      (fun s p i e hs => searchFn_gMatch env flags s p i e hs) _ _ s1 hG

/-- With one pattern argument, an index directory whose every path can be
examined and whose listing is that of the walked directory, and no goroutine
panicking, `Main` either ends in `log.Fatal` before any search, or returns
with `matches` equal to "some reported file had a matching line". -/
theorem Main_cases (env : Env) (flags : Flags) (args : List GoString) (picks : List Pick)
    (hargs : args.length = 1) (hpresent : env.tree.present = true)
    (hlisting : ∀ lst, env.listing = some lst → walkListing env.tree = some lst)
    (hnopanic : ∀ lst, env.listing = some lst →
      (concurBlock env flags picks lst initShared).2 = false) :
    Main env flags args picks = MainResult.exited 1 [] ∨
      ∃ s, Main env flags args picks = MainResult.returned s ∧
        s.matchesVar = s.trace.any (Event.isMatch env) := by
  have hG0 : initShared.gMatch = initShared.trace.any (Event.isMatch env) := rfl
  have hK0 : initShared.matchesVar = initShared.gMatch := rfl
  unfold Main
  simp only [hargs, ne_eq, not_true_eq_false, if_false]
  split
  · left; rfl
  · split
    · left; rfl
    · by_cases hc : flags.concur = true
      · simp only [hc, if_true]
        cases hl : env.listing with
        | none =>
          right
          exact ⟨initShared, rfl, rfl⟩
        | some lst =>
          simp only [hnopanic lst hl, Bool.false_eq_true, if_false]
          right
          apply walkIndexDir_returns env flags _ hpresent
          · exact concurBlock_invariant env flags
              (fun s => s.gMatch = s.trace.any (Event.isMatch env))
              (fun t s hs => stepTask_gMatch env flags t s hs) picks lst initShared hG0
          · by_cases hex : ∃ e ∈ lst, isShard e.2 = true
            · exact Or.inr ⟨lst, hlisting lst hl, hex⟩
            · left
              rw [concurBlock_idle env flags picks lst initShared]
              · exact hK0
              · intro e he
                by_contra hne
                exact hex ⟨e, he, by simpa using hne⟩
      · simp only [hc, Bool.false_eq_true, if_false]
        right
        exact walkIndexDir_returns env flags initShared hpresent hG0 (Or.inl hK0)

/-- On every run of csearch with exactly one pattern argument that is not
ended by a panic (the index directory's every path can be examined, its
listing is that of the walked directory, and no goroutine panics), whatever
the flags, the outcomes of the content reporter, the interleaving of the
goroutines and the values their unsynchronised reads return, the exit status
is 0 if and only if some file handed to the content reporter had a matching
line, and it is 1 otherwise. -/
theorem exit_status_of_completed_run (env : Env) (flags : Flags) (args : List GoString)
    (picks : List Pick) (hargs : args.length = 1) (hpresent : env.tree.present = true)
    (hlisting : ∀ lst, env.listing = some lst → walkListing env.tree = some lst)
    (hnopanic : ∀ lst, env.listing = some lst →
      (concurBlock env flags picks lst initShared).2 = false) :
    ((main env flags args picks).exit = 0 ↔
      ∃ path fileid name, Event.file path fileid name ∈ (main env flags args picks).trace ∧
        env.fileMatch name = true) ∧
    ((main env flags args picks).exit = 0 ∨ (main env flags args picks).exit = 1) := by
  have hany : ∀ t : List Event, t.any (Event.isMatch env) = true ↔
      ∃ path fileid name, Event.file path fileid name ∈ t ∧ env.fileMatch name = true := by
    intro t
    rw [List.any_eq_true]
    constructor
    · rintro ⟨ev, hev, hm⟩
      cases ev with
      | openIndex p => simp [Event.isMatch] at hm
      | postingQuery p b => simp [Event.isMatch] at hm
      | file p i n => exact ⟨p, i, n, hev, hm⟩
    · rintro ⟨p, i, n, hev, hm⟩
      exact ⟨Event.file p i n, hev, hm⟩
  rcases Main_cases env flags args picks hargs hpresent hlisting hnopanic with h | ⟨s, h, hm⟩
  · simp [main, h]
  · simp only [main, h]
    rw [← hany, ← hm]
    cases s.matchesVar <;> simp

end Csearch

namespace Csearch

set_option maxRecDepth 100000 in
/-- C1 (the code at the failing input): `csearch foo`, without `-indexdir` and
without `-concur`. `indexdir` is the empty path; `filepath.Walk` cannot examine
it and calls the callback with a nil `FileInfo`, on which the callback's first
statement `info.IsDir()` panics. No shard is opened, no file is handed to the
content reporter, and the exit status is 2. -/
theorem run_without_indexdir_exits_two :
    noFlags.indexDir = [] ∧ noFlags.concur = false ∧
    Walk (searchFn noIndexDirEnv noFlags) noFlags.indexDir noIndexDirEnv.tree initShared =
      (initShared, Ret.crash) ∧
    (main noIndexDirEnv noFlags ["foo".toList] []).trace = [] ∧
    (main noIndexDirEnv noFlags ["foo".toList] []).exit = 2 := by
  refine ⟨rfl, rfl, rfl, rfl, rfl⟩

/-! ## What a goroutine step does -/

theorem stepTask_entry (env : Env) (flags : Flags) (t : Task) (s : Shared) :
    (stepTask env flags t s).1.name = t.name ∧ (stepTask env flags t s).1.info = t.info := by
  unfold stepTask
  split
  · split
    · exact ⟨rfl, rfl⟩
    · split <;> exact ⟨rfl, rfl⟩
  · split <;> exact ⟨rfl, rfl⟩
  all_goals exact ⟨rfl, rfl⟩

theorem stepTask_extends (env : Env) (flags : Flags) (t : Task) (s : Shared) :
    ∃ ops, (stepTask env flags t s).2.trace = s.trace ++ ops := by
  unfold stepTask
  split
  · split
    · exact ⟨[], by simp⟩
    · split
      · exact ⟨_, rfl⟩
      · exact ⟨[], by simp⟩
  · split <;> exact ⟨[], by simp⟩
  · exact ⟨[], by simp⟩
  · exact ⟨[], by simp⟩
  · exact ⟨[], by simp⟩
  · exact ⟨_, rfl⟩
  · exact ⟨[], by simp⟩
  · exact ⟨[], by simp⟩

/-- A goroutine that has left its first step for a shard has opened and
queried that shard. -/
theorem stepTask_opened (env : Env) (flags : Flags) (t : Task) (s : Shared)
    (h : t.pc ≠ Pc.start → isShard t.info = true →
      Event.openIndex (taskPath env flags t.name) ∈ s.trace ∧
      Event.postingQuery (taskPath env flags t.name) flags.bruteFlag ∈ s.trace) :
    (stepTask env flags t s).1.pc ≠ Pc.start →
      isShard (stepTask env flags t s).1.info = true →
      Event.openIndex (taskPath env flags (stepTask env flags t s).1.name) ∈
        (stepTask env flags t s).2.trace ∧
      Event.postingQuery (taskPath env flags (stepTask env flags t s).1.name) flags.bruteFlag ∈
        (stepTask env flags t s).2.trace := by
  obtain ⟨ops, hops⟩ := stepTask_extends env flags t s
  obtain ⟨hn, hi⟩ := stepTask_entry env flags t s
  rw [hn, hi]
  intro _ hshard
  by_cases hpc : t.pc = Pc.start
  · simp only [isShard, Bool.and_eq_true, Bool.not_eq_true', decide_eq_true_eq] at hshard
    unfold stepTask
    rw [hpc]
    simp [hshard.1, hshard.2]
  · have := h hpc hshard
    rw [hops]
    exact ⟨List.mem_append_left _ this.1, List.mem_append_left _ this.2⟩

end Csearch

namespace Csearch

theorem opened_mono (env : Env) (flags : Flags) (u : Task) (s s1 : Shared)
    (hext : ∃ ops, s1.trace = s.trace ++ ops) (h : Opened env flags u s) :
    Opened env flags u s1 := by
  obtain ⟨ops, hops⟩ := hext
  intro hpc hshard
  have := h hpc hshard
  rw [hops]
  exact ⟨List.mem_append_left _ this.1, List.mem_append_left _ this.2⟩

theorem extends_step (env : Env) (flags : Flags) (s0 : Shared) (t : Task) (s : Shared)
    (h : ∃ ops, s.trace = s0.trace ++ ops) :
    ∃ ops, (stepTask env flags t s).2.trace = s0.trace ++ ops := by
  obtain ⟨ops, hops⟩ := h
  obtain ⟨ops1, h1⟩ := stepTask_extends env flags t s
  exact ⟨ops ++ ops1, by rw [h1, hops, List.append_assoc]⟩

theorem runTask_opened (env : Env) (flags : Flags) :
    ∀ (n : Nat) (t : Task) (s : Shared), Opened env flags t s →
      Opened env flags (runTask env flags n t s).1 (runTask env flags n t s).2
  | 0, _, _, h => h
  | n + 1, t, s, h => by
    simp only [runTask]
    exact runTask_opened env flags n _ _ (stepTask_opened env flags t s h)

theorem drain_opened (env : Env) (flags : Flags) :
    ∀ (ts : List Task) (s : Shared),
      (∀ u ∈ ts, Opened env flags u s) →
      ∀ u ∈ (drain env flags ts s).1, Opened env flags u (drain env flags ts s).2
  | [], s, _ => by simp [drain]
  | t :: ts, s, h => by
    simp only [drain]
    intro u hu
    rcases List.mem_cons.mp hu with rfl | hu
    · exact opened_mono env flags _ _ _
        (drain_invariant env flags
          (fun s1 => ∃ ops, s1.trace =
            (runTask env flags (stepsLeft env flags t s) t s).2.trace ++ ops)
          (fun t s1 hs => extends_step env flags _ t s1 hs) ts _ ⟨[], by simp⟩)
        (runTask_opened env flags _ t s (h t (List.mem_cons_self _ _)))
    · refine drain_opened env flags ts _ ?_ u hu
      intro v hv
      exact opened_mono env flags v s _
        (runTask_invariant env flags (fun s1 => ∃ ops, s1.trace = s.trace ++ ops)
          (fun t s1 hs => extends_step env flags s t s1 hs) _ t s ⟨[], by simp⟩)
        (h v (List.mem_cons_of_mem _ hv))

/-! ## Every goroutine returns -/

theorem stepsLeft_step (env : Env) (flags : Flags) (t : Task) (s : Shared)
    (h : t.pc ≠ Pc.done) :
    stepsLeft env flags (stepTask env flags t s).1 (stepTask env flags t s).2 + 1 ≤
      stepsLeft env flags t s := by
  cases hpc : t.pc with
  | start =>
    unfold stepTask
    rw [hpc]
    simp only
    split
    · simp [stepsLeft, hpc]
    · split
      · simp [stepsLeft, hpc]
      · simp [stepsLeft, hpc]
  | queried =>
    unfold stepTask
    rw [hpc]
    simp only
    split
    · simp only [stepsLeft, hpc, filterNames_eq, List.nil_append]
      have := List.length_filter_le (fun fileid =>
        decide (0 ≤ env.matchString (env.name (taskPath env flags t.name) fileid) true true))
        s.post
      omega
    · simp [stepsLeft, hpc]
  | filtered fnames =>
    unfold stepTask
    rw [hpc]
    simp [stepsLeft, hpc]
  | ready =>
    unfold stepTask
    rw [hpc]
    simp [stepsLeft, hpc]
  | reporting todo =>
    unfold stepTask
    rw [hpc]
    cases todo with
    | nil => simp [stepsLeft, hpc]
    | cons a rest => simp [stepsLeft, hpc]
  | loaded m =>
    unfold stepTask
    rw [hpc]
    simp [stepsLeft, hpc]
  | done => exact absurd hpc h

theorem runTask_done (env : Env) (flags : Flags) :
    ∀ (n : Nat) (t : Task) (s : Shared), stepsLeft env flags t s ≤ n →
      (runTask env flags n t s).1.pc = Pc.done
  | 0, t, s, h => by
    simp only [runTask]
    cases hpc : t.pc <;> simp [stepsLeft, hpc] at h ⊢
  | n + 1, t, s, h => by
    simp only [runTask]
    apply runTask_done env flags n
    by_cases hd : t.pc = Pc.done
    · have : stepTask env flags t s = (t, s) := by
        unfold stepTask; rw [hd]
      rw [this]
      simp [stepsLeft, hd]
    · have := stepsLeft_step env flags t s hd
      omega

theorem drain_done (env : Env) (flags : Flags) :
    ∀ (ts : List Task) (s : Shared), ∀ u ∈ (drain env flags ts s).1, u.pc = Pc.done
  | [], s => by simp [drain]
  | t :: ts, s => by
    simp only [drain]
    intro u hu
    rcases List.mem_cons.mp hu with rfl | hu
    · exact runTask_done env flags _ t s (le_refl _)
    · exact drain_done env flags ts _ u hu

end Csearch

namespace Csearch

/-- Once every goroutine has returned, waiting for them changes nothing: a
schedule that runs all goroutines to their ends is the whole concurrent
block. -/
theorem drain_of_done (env : Env) (flags : Flags) :
    ∀ (ts : List Task) (s : Shared), (∀ t ∈ ts, t.pc = Pc.done) →
      drain env flags ts s = (ts, s)
  | [], _, _ => rfl
  | t :: ts, s, h => by
    have ht := h t (List.mem_cons_self _ _)
    have hfuel : stepsLeft env flags t s = 0 := by simp [stepsLeft, ht]
    have ih := drain_of_done env flags ts s (fun u hu => h u (List.mem_cons_of_mem _ hu))
    simp only [drain, hfuel, runTask, ih]

/-! ## The goroutines stay those of the listing -/

theorem runTask_entry (env : Env) (flags : Flags) :
    ∀ (n : Nat) (t : Task) (s : Shared),
      (runTask env flags n t s).1.name = t.name ∧ (runTask env flags n t s).1.info = t.info
  | 0, _, _ => ⟨rfl, rfl⟩
  | n + 1, t, s => by
    simp only [runTask]
    have ih := runTask_entry env flags n (stepTask env flags t s).1 (stepTask env flags t s).2
    have h1 := stepTask_entry env flags t s
    exact ⟨ih.1.trans h1.1, ih.2.trans h1.2⟩

theorem drain_entries (env : Env) (flags : Flags) :
    ∀ (ts : List Task) (s : Shared),
      (drain env flags ts s).1.map (fun t => (t.name, t.info)) =
        ts.map (fun t => (t.name, t.info))
  | [], _ => rfl
  | t :: ts, s => by
    simp only [drain, List.map_cons]
    rw [drain_entries env flags ts, (runTask_entry env flags _ t s).1,
      (runTask_entry env flags _ t s).2]

/-! ## The goroutines under unsynchronised reads -/

theorem stepRacy_entry (env : Env) (flags : Flags) (p : Pick) (t : Task) (s : Shared) :
    (stepRacy env flags p t s).1.name = t.name ∧ (stepRacy env flags p t s).1.info = t.info :=
  stepTask_entry env flags t _

theorem stepRacy_extends (env : Env) (flags : Flags) (p : Pick) (t : Task) (s : Shared) :
    ∃ ops, (stepRacy env flags p t s).2.trace = s.trace ++ ops :=
  stepTask_extends env flags t s

/-- Whatever its reads return, a goroutine that has left its first step for a
shard has opened and queried that shard. -/
theorem stepRacy_opened (env : Env) (flags : Flags) (p : Pick) (t : Task) (s : Shared)
    (h : Opened env flags t s) :
    Opened env flags (stepRacy env flags p t s).1 (stepRacy env flags p t s).2 := by
  obtain ⟨ops, hops⟩ := stepRacy_extends env flags p t s
  obtain ⟨hn, hi⟩ := stepRacy_entry env flags p t s
  unfold Opened
  rw [hn, hi]
  intro _ hshard
  by_cases hpc : t.pc = Pc.start
  · simp only [isShard, Bool.and_eq_true, Bool.not_eq_true', decide_eq_true_eq] at hshard
    unfold stepRacy stepTask
    rw [hpc]
    simp [hshard.1, hshard.2]
  · have := h hpc hshard
    rw [hops]
    exact ⟨List.mem_append_left _ this.1, List.mem_append_left _ this.2⟩

theorem stepAtRacy_opened (env : Env) (flags : Flags) (p : Pick) :
    ∀ (i : Nat) (ts : List Task) (s : Shared),
      (∀ u ∈ ts, Opened env flags u s) →
      ∀ u ∈ (stepAtRacy env flags p i ts s).1,
        Opened env flags u (stepAtRacy env flags p i ts s).2
  | _, [], s, _ => by simp [stepAtRacy]
  | 0, t :: ts, s, h => by
    simp only [stepAtRacy]
    intro u hu
    rcases List.mem_cons.mp hu with rfl | hu
    · exact stepRacy_opened env flags p t s (h t (List.mem_cons_self _ _))
    · exact opened_mono env flags u s _ (stepRacy_extends env flags p t s)
        (h u (List.mem_cons_of_mem _ hu))
  | i + 1, t :: ts, s, h => by
    simp only [stepAtRacy]
    intro u hu
    rcases List.mem_cons.mp hu with rfl | hu
    · exact opened_mono env flags u s _
        (stepAtRacy_invariant env flags (fun s1 => ∃ ops, s1.trace = s.trace ++ ops)
          (fun t s1 hs => extends_step env flags s t s1 hs) p i ts s ⟨[], by simp⟩)
        (h u (List.mem_cons_self _ _))
    · exact stepAtRacy_opened env flags p i ts s
        (fun v hv => h v (List.mem_cons_of_mem _ hv)) u hu

theorem runPicks_opened (env : Env) (flags : Flags) :
    ∀ (picks : List Pick) (ts : List Task) (s : Shared),
      (∀ u ∈ ts, Opened env flags u s) →
      ∀ u ∈ (runPicks env flags picks ts s).1.1,
        Opened env flags u (runPicks env flags picks ts s).1.2
  | [], ts, s, h => by simpa [runPicks] using h
  | p :: rest, ts, s, h => by
    simp only [runPicks]
    split
    · exact h
    · exact runPicks_opened env flags rest _ _ (stepAtRacy_opened env flags p p.task ts s h)

theorem stepAtRacy_entries (env : Env) (flags : Flags) (p : Pick) :
    ∀ (i : Nat) (ts : List Task) (s : Shared),
      (stepAtRacy env flags p i ts s).1.map (fun t => (t.name, t.info)) =
        ts.map (fun t => (t.name, t.info))
  | _, [], _ => by simp [stepAtRacy]
  | 0, t :: ts, s => by
    simp [stepAtRacy, (stepRacy_entry env flags p t s).1, (stepRacy_entry env flags p t s).2]
  | i + 1, t :: ts, s => by
    simp [stepAtRacy, stepAtRacy_entries env flags p i ts s]

theorem runPicks_entries (env : Env) (flags : Flags) :
    ∀ (picks : List Pick) (ts : List Task) (s : Shared),
      (runPicks env flags picks ts s).1.1.map (fun t => (t.name, t.info)) =
        ts.map (fun t => (t.name, t.info))
  | [], _, _ => rfl
  | p :: rest, ts, s => by
    simp only [runPicks]
    split
    · rfl
    · rw [runPicks_entries env flags rest, stepAtRacy_entries]

/-- After a concurrent block in which no goroutine panicked, every shard of
the listing has been opened and queried by its goroutine, whatever the
interleaving and whatever the unsynchronised reads returned. -/
theorem concurBlock_opens_every_shard (env : Env) (flags : Flags) (picks : List Pick)
    (fileLst : List (GoString × FileInfo)) (s : Shared)
    (hrun : (concurBlock env flags picks fileLst s).2 = false)
    (e : GoString × FileInfo) (he : e ∈ fileLst) (hshard : isShard e.2 = true) :
    Event.openIndex (taskPath env flags e.1) ∈
      (concurBlock env flags picks fileLst s).1.2.trace ∧
    Event.postingQuery (taskPath env flags e.1) flags.bruteFlag ∈
      (concurBlock env flags picks fileLst s).1.2.trace := by
  rw [concurBlock_no_panic env flags picks fileLst s hrun]
  have hentries : (drain env flags (runPicks env flags picks (fileLst.map mkTask) s).1.1
      (runPicks env flags picks (fileLst.map mkTask) s).1.2).1.map
        (fun t => (t.name, t.info)) = fileLst := by
    rw [drain_entries, runPicks_entries, List.map_map]
    have : ((fun t : Task => (t.name, t.info)) ∘ mkTask) = id := by
      funext x; rfl
    rw [this, List.map_id]
  have hmem : e ∈ (drain env flags (runPicks env flags picks (fileLst.map mkTask) s).1.1
      (runPicks env flags picks (fileLst.map mkTask) s).1.2).1.map
        (fun t => (t.name, t.info)) := by
    rw [hentries]; exact he
  obtain ⟨t, ht, hte⟩ := List.mem_map.mp hmem
  have hopen : ∀ u ∈ (drain env flags (runPicks env flags picks (fileLst.map mkTask) s).1.1
      (runPicks env flags picks (fileLst.map mkTask) s).1.2).1,
      Opened env flags u (drain env flags (runPicks env flags picks (fileLst.map mkTask) s).1.1
        (runPicks env flags picks (fileLst.map mkTask) s).1.2).2 := by
    apply drain_opened
    apply runPicks_opened
    intro u hu
    obtain ⟨x, _, rfl⟩ := List.mem_map.mp hu
    intro hpc
    exact absurd rfl hpc
  have hdone : t.pc = Pc.done := drain_done env flags _ _ t ht
  have hn : t.name = e.1 := congrArg Prod.fst hte
  have hi : t.info = e.2 := congrArg Prod.snd hte
  have := hopen t ht (by rw [hdone]; simp) (by rw [hi]; exact hshard)
  rw [hn] at this
  exact this

/-! ## The walk opens every shard of the directory -/

theorem searchFn_extends (env : Env) (flags : Flags) (s0 s : Shared) (path : GoString)
    (info : Option FileInfo) (err : Bool) (h : ∃ ops, s.trace = s0.trace ++ ops) :
    ∃ ops, (searchFn env flags s path info err).1.trace = s0.trace ++ ops := by
  obtain ⟨ops, hops⟩ := h
  unfold searchFn
  cases info with
  | none => exact ⟨ops, hops⟩
  | some i =>
    simp only
    split
    · exact ⟨ops, hops⟩
    · split
      · exact ⟨ops, hops⟩
      · split
        · exact ⟨_, by rw [(searchShard_spec env flags path s).1, hops, List.append_assoc]⟩
        · exact ⟨ops, hops⟩

/-- The events of one shard search by the walk. -/
theorem walkEntries_opens_every_shard (env : Env) (flags : Flags) (dir : GoString) :
    ∀ (entries : FsEntries) (s : Shared), entries.present = true →
      ∃ ops, (walkEntries (searchFn env flags) dir entries s).1.trace = s.trace ++ ops ∧
        ∀ lst, listEntries entries = some lst → ∀ e ∈ lst, isShard e.2 = true →
          Event.openIndex (joinPath dir e.1) ∈ ops ∧
          Event.postingQuery (joinPath dir e.1) flags.bruteFlag ∈ ops ∧
          ∀ fileid ∈ survivors env flags (joinPath dir e.1),
            Event.file (joinPath dir e.1) fileid (env.name (joinPath dir e.1) fileid) ∈ ops
  | FsEntries.nil, s, _ => by
    refine ⟨[], by simp [walkEntries], ?_⟩
    intro lst hl e he
    simp [listEntries] at hl
    subst hl
    simp at he
  | FsEntries.cons name FsNode.missing rest, s, hp => by
    simp [FsEntries.present, FsNode.present] at hp
  | FsEntries.cons name (FsNode.entry info readErr sub) rest, s, hp => by
    simp only [FsEntries.present, Bool.and_eq_true] at hp
    have hok := walkNode_present_ok env flags (FsNode.entry info readErr sub)
      (joinPath dir name) s hp.1
    obtain ⟨ops1, h1⟩ := walkNode_invariant (searchFn env flags)
      (fun s1 => ∃ ops, s1.trace = s.trace ++ ops)
      (fun s1 p i e hs => searchFn_extends env flags s s1 p i e hs)
      (FsNode.entry info readErr sub) (joinPath dir name) s ⟨[], by simp⟩
    obtain ⟨ops2, h2, hrest⟩ := walkEntries_opens_every_shard env flags dir rest
      (walkNode (searchFn env flags) (joinPath dir name) (FsNode.entry info readErr sub) s).1
      hp.2
    simp only [walkEntries, hok]
    simp only [bne_self_eq_false, Bool.false_and, Bool.false_eq_true, if_false]
    refine ⟨ops1 ++ ops2, by rw [h2, h1, List.append_assoc], ?_⟩
    intro lst hl e he hshard
    simp only [listEntries] at hl
    cases hr : listEntries rest with
    | none => simp [hr] at hl
    | some lst1 =>
      simp only [hr, Option.map_some', Option.some.injEq] at hl
      subst hl
      rcases List.mem_cons.mp he with rfl | he
      · simp only [isShard, Bool.and_eq_true, Bool.not_eq_true', decide_eq_true_eq] at hshard
        have hnode : (walkNode (searchFn env flags) (joinPath dir name)
            (FsNode.entry info readErr sub) s).1 =
            searchShard env flags (joinPath dir name) s := by
          simp only [walkNode, hshard.1, Bool.not_false, if_true]
          simp only [searchFn, hshard.1, Bool.false_eq_true, if_false, hshard.2, if_true]
        rw [hnode, (searchShard_spec env flags _ s).1] at h1
        have hops1 := List.append_cancel_left h1
        rw [← hops1]
        refine ⟨by simp, by simp, ?_⟩
        intro fileid hid
        apply List.mem_append_left
        simp only [List.mem_cons, List.mem_map]
        exact Or.inr (Or.inr ⟨fileid, hid, rfl⟩)
      · have := hrest lst1 hr e he hshard
        exact ⟨List.mem_append_right _ this.1, List.mem_append_right _ this.2.1,
          fun fileid hid => List.mem_append_right _ (this.2.2 fileid hid)⟩

end Csearch

namespace Csearch

/-- A goroutine panic in the concurrent block ends the process with status
2: the walk never runs. -/
theorem goroutine_panic_ends_run (env : Env) (flags : Flags) (args : List GoString)
    (picks : List Pick) (fileLst : List (GoString × FileInfo))
    (hargs : args.length = 1) (hcomp : env.compileOk = true)
    (hfil : flags.fFlag = [] ∨ env.filterOk = true)
    (hconcur : flags.concur = true) (hlist : env.listing = some fileLst)
    (hrun : (concurBlock env flags picks fileLst initShared).2 = true) :
    (main env flags args picks).exit = 2 ∧
    (main env flags args picks).trace =
      (concurBlock env flags picks fileLst initShared).1.2.trace := by
  have hfatal : (flags.fFlag ≠ [] && !env.filterOk) = false := by
    rcases hfil with h | h
    · simp [h]
    · simp [h]
  unfold main Main
  simp only [hargs, ne_eq, not_true_eq_false, if_false, hcomp, Bool.not_true,
    Bool.false_eq_true, hfatal, hconcur, if_true, hlist, hrun, and_self]

/-- In concurrent mode, after a successful listing and with no goroutine
panicking, the calls of the run are those of the goroutines followed by those
of the walk, and every shard of the listing is opened and queried by its
goroutine and again by the walk. -/
theorem walk_follows_concurBlock (env : Env) (flags : Flags) (args : List GoString)
    (picks : List Pick) (fileLst : List (GoString × FileInfo))
    (hargs : args.length = 1) (hcomp : env.compileOk = true)
    (hfil : flags.fFlag = [] ∨ env.filterOk = true)
    (hconcur : flags.concur = true) (hlist : env.listing = some fileLst)
    (hrun : (concurBlock env flags picks fileLst initShared).2 = false)
    (hsame : walkListing env.tree = some fileLst)
    (hpresent : env.tree.present = true) :
    ∃ walked,
      (main env flags args picks).trace =
        (concurBlock env flags picks fileLst initShared).1.2.trace ++ walked ∧
      ∀ e ∈ fileLst, isShard e.2 = true →
        (Event.openIndex (taskPath env flags e.1) ∈
            (concurBlock env flags picks fileLst initShared).1.2.trace ∧
          Event.postingQuery (taskPath env flags e.1) flags.bruteFlag ∈
            (concurBlock env flags picks fileLst initShared).1.2.trace) ∧
        (Event.openIndex (joinPath flags.indexDir e.1) ∈ walked ∧
          Event.postingQuery (joinPath flags.indexDir e.1) flags.bruteFlag ∈ walked ∧
          ∀ fileid ∈ survivors env flags (joinPath flags.indexDir e.1),
            Event.file (joinPath flags.indexDir e.1) fileid
              (env.name (joinPath flags.indexDir e.1) fileid) ∈ walked) := by
  have hfatal : (flags.fFlag ≠ [] && !env.filterOk) = false := by
    rcases hfil with h | h
    · simp [h]
    · simp [h]
  have hmain : (main env flags args picks).trace =
      (walkNode (searchFn env flags) flags.indexDir env.tree
        (concurBlock env flags picks fileLst initShared).1.2).1.trace := by
    unfold main Main walkIndexDir
    simp only [hargs, ne_eq, not_true_eq_false, if_false, hcomp, Bool.not_true,
      Bool.false_eq_true, hfatal, hconcur, if_true, hlist, hrun,
      Walk_present_ok env flags _ _ _ hpresent]
    simp [Walk_fst]
  cases htree : env.tree with
  | missing => rw [htree] at hsame; simp [walkListing] at hsame
  | entry info readErr entries =>
    rw [htree] at hsame hpresent
    simp only [FsNode.present] at hpresent
    simp only [walkListing] at hsame
    by_cases hd : (info.isDir && !readErr) = true
    · rw [if_pos hd] at hsame
      simp only [Bool.and_eq_true, Bool.not_eq_true'] at hd
      have hfn : ∀ s, searchFn env flags s flags.indexDir (some info) false = (s, Ret.ok) := by
        intro s; simp [searchFn, hd.1]
      obtain ⟨ops, hops, hshards⟩ := walkEntries_opens_every_shard env flags flags.indexDir
        entries (concurBlock env flags picks fileLst initShared).1.2 hpresent
      refine ⟨ops, ?_, ?_⟩
      · rw [hmain, htree]
        simp only [walkNode, hd.1, hd.2, hfn]
        simpa using hops
      · intro e he hshard
        exact ⟨concurBlock_opens_every_shard env flags picks fileLst initShared hrun e he
            hshard,
          hshards fileLst hsame e he hshard⟩
    · rw [if_neg hd] at hsame
      exact absurd hsame (by simp)

end Csearch

namespace Csearch

/-- C10 (amended): take a csearch run in concurrent mode, whatever the
interleaving of the goroutines and whatever their unsynchronised reads of
`post` and `g.Match` return. When listing the index directory succeeds, either
a goroutine panics, and then the process ends with status 2 and the walk never
runs; or no goroutine panics, and then, the index directory being a directory
whose entries are those listed and whose every path the walk can examine, the
goroutines of the listing run and the full walk of the same directory runs
too: the calls of the run are those of the concurrent block followed by those
of the walk, every non-empty top-level shard file is opened and queried once
by its goroutine (under its absolute path) and once more by the walk (under
`filepath.Join(indexdir, name)`), and the walk hands each of its surviving
files to the content reporter. When the listing fails `Main` returns at once:
nothing is opened and the exit status is 1. -/
theorem concurrent_mode_runs_walk_too (env : Env) (flags : Flags) (args : List GoString)
    (picks : List Pick)
    (hargs : args.length = 1) (hcomp : env.compileOk = true)
    (hfil : flags.fFlag = [] ∨ env.filterOk = true)
    (hconcur : flags.concur = true) :
    (∀ fileLst, env.listing = some fileLst →
      ((concurBlock env flags picks fileLst initShared).2 = true →
        (main env flags args picks).exit = 2 ∧
        (main env flags args picks).trace =
          (concurBlock env flags picks fileLst initShared).1.2.trace) ∧
      ((concurBlock env flags picks fileLst initShared).2 = false →
        walkListing env.tree = some fileLst → env.tree.present = true →
        ∃ walked,
          (main env flags args picks).trace =
            (concurBlock env flags picks fileLst initShared).1.2.trace ++ walked ∧
          ∀ e ∈ fileLst, isShard e.2 = true →
            (Event.openIndex (taskPath env flags e.1) ∈
                (concurBlock env flags picks fileLst initShared).1.2.trace ∧
              Event.postingQuery (taskPath env flags e.1) flags.bruteFlag ∈
                (concurBlock env flags picks fileLst initShared).1.2.trace) ∧
            (Event.openIndex (joinPath flags.indexDir e.1) ∈ walked ∧
              Event.postingQuery (joinPath flags.indexDir e.1) flags.bruteFlag ∈ walked ∧
              ∀ fileid ∈ survivors env flags (joinPath flags.indexDir e.1),
                Event.file (joinPath flags.indexDir e.1) fileid
                  (env.name (joinPath flags.indexDir e.1) fileid) ∈ walked))) ∧
    (env.listing = none →
      (main env flags args picks).trace = [] ∧ (main env flags args picks).exit = 1) := by
  refine ⟨fun fileLst hlist => ⟨fun hrun =>
      goroutine_panic_ends_run env flags args picks fileLst hargs hcomp hfil hconcur hlist hrun,
    fun hrun hsame hpresent =>
      walk_follows_concurBlock env flags args picks fileLst hargs hcomp hfil hconcur hlist
        hrun hsame hpresent⟩, ?_⟩
  intro hnone
  have hfatal : (flags.fFlag ≠ [] && !env.filterOk) = false := by
    rcases hfil with h | h
    · simp [h]
    · simp [h]
  have hM : Main env flags args picks = MainResult.returned initShared := by
    unfold Main
    simp only [hargs, ne_eq, not_true_eq_false, if_false, hcomp, Bool.not_true,
      Bool.false_eq_true, hfatal, hconcur, if_true, hnone]
  simp [main, hM, initShared]

set_option maxRecDepth 100000 in
/-- C10 (witness): `csearch -concur -indexdir /idx foo` over the two sample
shards, in a run where a goroutine's read of `post` returns a slice that no
goroutine assigned. -/
theorem concurrent_mode_runs_walk_too_witness :
    twoShardEnv.listing = some twoShardListing ∧
    (concurBlock twoShardEnv concurFlags tornPicks twoShardListing initShared).2 = false ∧
    ∃ walked,
      (main twoShardEnv concurFlags ["foo".toList] tornPicks).trace =
        (concurBlock twoShardEnv concurFlags tornPicks twoShardListing
          initShared).1.2.trace ++ walked ∧
      ∀ e ∈ twoShardListing, isShard e.2 = true →
        (Event.openIndex (taskPath twoShardEnv concurFlags e.1) ∈
            (concurBlock twoShardEnv concurFlags tornPicks twoShardListing
              initShared).1.2.trace ∧
          Event.postingQuery (taskPath twoShardEnv concurFlags e.1)
              concurFlags.bruteFlag ∈
            (concurBlock twoShardEnv concurFlags tornPicks twoShardListing
              initShared).1.2.trace) ∧
        (Event.openIndex (joinPath concurFlags.indexDir e.1) ∈ walked ∧
          Event.postingQuery (joinPath concurFlags.indexDir e.1)
            concurFlags.bruteFlag ∈ walked ∧
          ∀ fileid ∈ survivors twoShardEnv concurFlags
              (joinPath concurFlags.indexDir e.1),
            Event.file (joinPath concurFlags.indexDir e.1) fileid
              (twoShardEnv.name (joinPath concurFlags.indexDir e.1) fileid) ∈ walked) :=
  ⟨by decide, by decide,
    ((concurrent_mode_runs_walk_too twoShardEnv concurFlags ["foo".toList] tornPicks
      rfl rfl (Or.inl rfl) rfl).1 twoShardListing (by decide)).2 (by decide) (by decide)
      (by decide)⟩

set_option maxRecDepth 100000 in
/-- C10 (counterexample): `csearch -concur -indexdir /idx foo` where `/idx` is
a single non-empty shard file. `ioutil.ReadDir` fails on it and `Main` returns
at once: nothing is opened and the exit status is 1, although the walk, which
the run without `-concur` performs, opens and searches the shard and finds the
match. -/
theorem concurrent_mode_returns_when_listing_fails :
    oneFileEnv.listing = none ∧
    (main oneFileEnv concurFlags ["foo".toList] []).trace = [] ∧
    (main oneFileEnv concurFlags ["foo".toList] []).exit = 1 ∧
    (main oneFileEnv plainFlags ["foo".toList] []).trace =
      [Event.openIndex "/idx".toList, Event.postingQuery "/idx".toList false,
        Event.file "/idx".toList 0 "/src/y.go".toList] ∧
    (main oneFileEnv plainFlags ["foo".toList] []).exit = 0 := by
  decide

set_option maxRecDepth 100000 in
/-- The run of `csearch -concur -indexdir /idx foo` over the two sample shards
in which the goroutine of `/idx/a` panics on entering its report loop: both
shards have been opened by their goroutines, nothing has been handed to the
content reporter, the walk does not run and the exit status is 2. -/
theorem panicking_goroutine_example :
    (main twoShardEnv concurFlags ["foo".toList] panicPicks).trace =
      [Event.openIndex "/idx/a".toList, Event.postingQuery "/idx/a".toList false,
        Event.openIndex "/idx/b".toList, Event.postingQuery "/idx/b".toList false] ∧
    (main twoShardEnv concurFlags ["foo".toList] panicPicks).exit = 2 := by
  decide

/-! ## The identifiers handed to the content reporter -/

theorem reportedIds_append (path : GoString) (t1 t2 : List Event) :
    reportedIds path (t1 ++ t2) = reportedIds path t1 ++ reportedIds path t2 := by
  simp [reportedIds, List.filterMap_append]

theorem reportedIds_files (env : Env) (path : GoString) :
    ∀ ids : List Nat,
      reportedIds path (ids.map (fun fileid => Event.file path fileid (env.name path fileid))) =
        ids
  | [] => rfl
  | fileid :: rest => by
    have ih := reportedIds_files env path rest
    simp only [reportedIds, List.map_cons, List.filterMap_cons, if_true] at ih ⊢
    rw [ih]

/-- The walk hands to the content reporter, for a shard, exactly the posting
result in its order, or with a file-name filter exactly those of its
identifiers whose name the filter matches anchored at both ends. -/
theorem walk_reports_survivors (env : Env) (flags : Flags) (s : Shared) (path : GoString)
    (info : FileInfo) (hshard : isShard info = true) :
    reportedIds path (searchFn env flags s path (some info) false).1.trace =
      reportedIds path s.trace ++ survivors env flags path := by
  simp only [isShard, Bool.and_eq_true, Bool.not_eq_true', decide_eq_true_eq] at hshard
  simp only [searchFn, hshard.1, Bool.false_eq_true, if_false, hshard.2, if_true]
  rw [(searchShard_spec env flags path s).1, reportedIds_append]
  congr 1
  simp only [reportedIds, List.filterMap_cons]
  exact reportedIds_files env path _

set_option maxRecDepth 100000 in
/-- C9 (the code at the failing input): `csearch -concur -indexdir /idx foo`
over the two sample shards, no file-name filter. The posting result of shard
`/idx/a` is empty. With the goroutines scheduled so that the goroutine of
`/idx/b` assigns the shared `post` between the assignment and the report loop
of the goroutine of `/idx/a`, the latter hands file 0, an identifier of the
other shard's posting result, to the content reporter. -/
theorem goroutine_reports_ids_of_other_shard :
    twoShardEnv.postingQuery "/idx/a".toList false = [] ∧
    survivors twoShardEnv concurFlags "/idx/a".toList = [] ∧
    reportedIds "/idx/a".toList
        (fanOut twoShardEnv concurFlags [0, 1, 0, 0, 0] twoShardListing
          initShared).2.trace = [0] ∧
    Event.file "/idx/a".toList 0 "/src/x.go".toList ∈
      (fanOut twoShardEnv concurFlags [0, 1, 0, 0, 0] twoShardListing initShared).2.trace := by
  decide

end Csearch

namespace Csearch

/-! ## A goroutine that runs without interference -/

theorem runTask_of_done (env : Env) (flags : Flags) :
    ∀ (n : Nat) (t : Task) (s : Shared), t.pc = Pc.done → (runTask env flags n t s).2 = s
  | 0, _, _, _ => rfl
  | n + 1, t, s, h => by
    have hstep : stepTask env flags t s = (t, s) := by
      unfold stepTask; rw [h]
    simp only [runTask, hstep]
    exact runTask_of_done env flags n t s h

theorem runTask_reporting (env : Env) (flags : Flags) :
    ∀ (todo : List Nat) (n : Nat) (t : Task) (s : Shared),
      t.pc = Pc.reporting todo → todo.length + 2 ≤ n →
      (runTask env flags n t s).2 =
        { reportAll env (taskPath env flags t.name) todo s with
          matchesVar := (reportAll env (taskPath env flags t.name) todo s).gMatch }
  | [], n, t, s, hpc, hn => by
    obtain ⟨k, rfl⟩ : ∃ k, n = k + 2 := ⟨n - 2, by simp at hn; omega⟩
    have h1 : stepTask env flags t s = ({ t with pc := Pc.loaded s.gMatch }, s) := by
      unfold stepTask; rw [hpc]
    have h2 : stepTask env flags { t with pc := Pc.loaded s.gMatch } s =
        ({ t with pc := Pc.done }, { s with matchesVar := s.gMatch }) := by
      unfold stepTask; rfl
    simp only [runTask, h1, h2, reportAll]
    exact runTask_of_done env flags k _ _ rfl
  | fileid :: rest, n, t, s, hpc, hn => by
    obtain ⟨k, rfl⟩ : ∃ k, n = k + 1 := ⟨n - 1, by simp at hn; omega⟩
    have h1 : stepTask env flags t s =
        ({ t with pc := Pc.reporting rest },
          reportFile env (taskPath env flags t.name) s fileid) := by
      unfold stepTask; rw [hpc]
    simp only [runTask, h1, reportAll]
    exact runTask_reporting env flags rest k _ _ rfl (by simp at hn ⊢; omega)

theorem runTask_step (env : Env) (flags : Flags) (n : Nat) (t t1 : Task) (s s1 : Shared)
    (h : stepTask env flags t s = (t1, s1)) :
    runTask env flags (n + 1) t s = runTask env flags n t1 s1 := by
  simp only [runTask, h]

/-- A goroutine launched for a shard and left to run alone does to the shared
variables exactly what the walk callback does for that shard; in particular it
hands the same identifiers to the content reporter. Only the interleaving with
other goroutines, through the shared `post`, makes it differ. -/
theorem lone_goroutine_searches_shard (env : Env) (flags : Flags) (t : Task) (s : Shared)
    (hpc : t.pc = Pc.start) (hshard : isShard t.info = true) :
    (runTask env flags (stepsLeft env flags t s) t s).2 =
      searchShard env flags (taskPath env flags t.name) s := by
  simp only [isShard, Bool.and_eq_true, Bool.not_eq_true', decide_eq_true_eq] at hshard
  have hfuel : stepsLeft env flags t s =
      (env.postingQuery (taskPath env flags t.name) flags.bruteFlag).length + 7 := by
    simp [stepsLeft, hpc]
  have h1 : stepTask env flags t s =
      ({ t with pc := Pc.queried },
        { s with
          post := env.postingQuery (taskPath env flags t.name) flags.bruteFlag
          trace := s.trace ++
            [Event.openIndex (taskPath env flags t.name),
              Event.postingQuery (taskPath env flags t.name) flags.bruteFlag] }) := by
    unfold stepTask
    rw [hpc]
    simp [hshard.1, hshard.2]
  have hready : ∀ s1 : Shared, stepTask env flags { t with pc := Pc.ready } s1 =
      ({ t with pc := Pc.reporting s1.post }, s1) := by
    intro s1; unfold stepTask; rfl
  rw [hfuel, runTask_step env flags _ _ _ _ _ h1]
  by_cases hf : flags.fFlag = []
  · have h2 : ∀ s1 : Shared, stepTask env flags { t with pc := Pc.queried } s1 =
        ({ t with pc := Pc.ready }, s1) := by
      intro s1; unfold stepTask; simp [hf]
    rw [runTask_step env flags _ _ _ _ _ (h2 _), runTask_step env flags _ _ _ _ _ (hready _),
      runTask_reporting env flags _ _ _ _ rfl (by simp)]
    simp [searchShard, hf]
  · have h2 : ∀ s1 : Shared, stepTask env flags { t with pc := Pc.queried } s1 =
        ({ t with pc := Pc.filtered (filterNames env (taskPath env flags t.name) s1.post []) },
          s1) := by
      intro s1; unfold stepTask; simp [hf]
    have h3 : ∀ (s1 : Shared) (fnames : List Nat),
        stepTask env flags { t with pc := Pc.filtered fnames } s1 =
          ({ t with pc := Pc.ready }, { s1 with post := fnames }) := by
      intro s1 fnames; unfold stepTask; rfl
    rw [runTask_step env flags _ _ _ _ _ (h2 _), runTask_step env flags _ _ _ _ _ (h3 _ _),
      runTask_step env flags _ _ _ _ _ (hready _),
      runTask_reporting env flags _ _ _ _ rfl (by
        simp only [filterNames_eq, List.nil_append]
        have := List.length_filter_le (fun fileid =>
          decide (0 ≤ env.matchString (env.name (taskPath env flags t.name) fileid) true true))
          (env.postingQuery (taskPath env flags t.name) flags.bruteFlag)
        omega)]
    simp [searchShard, hf]

end Csearch
